import Mathlib

/-!
Verification of the whiteboard-animation timeline engine.

The development shallowly embeds the engine's source:
* `textToPath` (glyph table, stroke compilation helpers, path generators),
* the `Timeline` slot allocator and `WhiteboardSceneGenerator` (scene compiler),
* the `WhiteboardEngine` action-state evaluator and hand tracking.

Numbers are modelled by a `LinearOrderedField` (instantiated at `ℚ` for
executable evaluation and at `ℝ` where the source uses `Math.sqrt`,
`Math.cos`, `Math.sin`, `Math.atan2`); those four float-library functions and
the DOM-based path-point sampler are passed explicitly as parameters, so every
theorem below holds for the real functions in particular.  SVG path strings
are modelled structurally as lists of path commands: every operation the source
performs on a path string (coordinate transformation, command counting,
concatenation) acts through this structure.
-/

namespace Learnai

/-- A 2-D point, `{x, y}` in the source. -/
structure Pos (α : Type) where
  x : α
  y : α
  deriving DecidableEq, Repr

/-- One SVG path command (`M`, `L`, `C`, `Q`, `Z`) with its coordinates;
structural model of one command of an SVG path string. -/
inductive PathCmd (α : Type) where
  | M (x y : α)
  | L (x y : α)
  | C (x1 y1 x2 y2 x y : α)
  | Q (x1 y1 x y : α)
  | Z
  deriving DecidableEq, Repr

/-- Structural model of an SVG path string: its list of commands. -/
abbrev SvgPath (α : Type) : Type := List (PathCmd α)

/-- The float math-library functions the source calls (`Math.sqrt`,
`Math.cos`, `Math.sin`, `Math.atan2`, `Math.PI`), abstracted so the engine can
be instantiated both at `ℝ` (the honest reading) and at computable carriers. -/
structure MathOps (α : Type) where
  sqrt : α → α
  cos : α → α
  sin : α → α
  atan2 : α → α → α
  pi : α

variable {α : Type} [LinearOrderedField α]

/-! ## Timeline slot allocator (`class Timeline`) -/

/-- Allocator state: `currentTime` is the cursor, `cameraBusyUntil` the
camera-exclusive cursor.  Both start at `0` (`reset`). -/
structure Timeline (α : Type) where
  currentTime : α
  cameraBusyUntil : α
  deriving DecidableEq, Repr

/-- Model of `new Timeline()` / `reset()`. -/
def Timeline.init : Timeline α := ⟨0, 0⟩

/-- Options of `nextAvailableSlot`.  `duration = none` models a non-finite
(`NaN`/`Infinity`) input number, which the source detects with
`isNaN(duration) || !isFinite(duration)`; `some q` a finite value. -/
structure SlotOptions (α : Type) where
  duration : Option α
  needsCamera : Bool := false
  narrationPause : Bool := false
  deriving DecidableEq, Repr

/-- Model of `const safeDuration = isNaN(duration) || !isFinite(duration) ? 0.5
: Math.max(0.1, duration)`. -/
def safeDuration (d : Option α) : α :=
  match d with
  | none => 1/2
  | some q => max (1/10) q

/-- Model of `Timeline.nextAvailableSlot`: returns the reserved start time and the
updated allocator state. -/
def Timeline.nextAvailableSlot (tl : Timeline α) (opts : SlotOptions α) :
    α × Timeline α :=
  let slotStart0 :=
    if opts.needsCamera then max tl.currentTime tl.cameraBusyUntil
    else tl.currentTime
  let slotStart := if opts.narrationPause then slotStart0 + 3/10 else slotStart0
  let slotEnd := slotStart + safeDuration opts.duration + 1/10
  (slotStart,
   { currentTime := slotEnd
     cameraBusyUntil := if opts.needsCamera then slotEnd else tl.cameraBusyUntil })

/-! Basic allocator facts. -/

theorem nextAvailableSlot_fst (tl : Timeline α) (opts : SlotOptions α) :
    (tl.nextAvailableSlot opts).1 =
      (if opts.needsCamera then max tl.currentTime tl.cameraBusyUntil
       else tl.currentTime) +
      (if opts.narrationPause then 3/10 else 0) := by
  simp only [Timeline.nextAvailableSlot]
  by_cases hc : opts.needsCamera <;> by_cases hp : opts.narrationPause <;>
    simp [hc, hp]

theorem nextAvailableSlot_currentTime (tl : Timeline α) (opts : SlotOptions α) :
    ((tl.nextAvailableSlot opts).2).currentTime =
      (tl.nextAvailableSlot opts).1 + safeDuration opts.duration + 1/10 := by
  simp [Timeline.nextAvailableSlot]

theorem nextAvailableSlot_cameraBusyUntil (tl : Timeline α)
    (opts : SlotOptions α) :
    ((tl.nextAvailableSlot opts).2).cameraBusyUntil =
      (if opts.needsCamera then ((tl.nextAvailableSlot opts).2).currentTime
       else tl.cameraBusyUntil) := by
  by_cases hc : opts.needsCamera <;> simp [Timeline.nextAvailableSlot, hc]

theorem safeDuration_pos (d : Option α) : 0 < safeDuration d := by
  match d with
  | none => norm_num [safeDuration]
  | some q =>
      have : (0:α) < 1/10 := by norm_num
      exact lt_of_lt_of_le this (le_max_left _ _)

theorem nextAvailableSlot_start_ge (tl : Timeline α) (opts : SlotOptions α) :
    tl.currentTime ≤ (tl.nextAvailableSlot opts).1 := by
  rw [nextAvailableSlot_fst]
  have h1 : tl.currentTime ≤
      (if opts.needsCamera then max tl.currentTime tl.cameraBusyUntil
       else tl.currentTime) := by
    by_cases hc : opts.needsCamera <;> simp [hc]
  have h2 : (0:α) ≤ (if opts.narrationPause then (3:α)/10 else 0) := by
    by_cases hp : opts.narrationPause <;> simp [hp] <;> norm_num
  linarith

theorem nextAvailableSlot_mono (tl : Timeline α) (opts : SlotOptions α) :
    tl.currentTime ≤ ((tl.nextAvailableSlot opts).2).currentTime := by
  have h1 := nextAvailableSlot_start_ge tl opts
  have h2 := nextAvailableSlot_currentTime tl opts
  have h3 := safeDuration_pos (α := α) opts.duration
  linarith [h2 ▸ (by linarith : tl.currentTime ≤
    (tl.nextAvailableSlot opts).1 + safeDuration opts.duration + 1/10)]

theorem nextAvailableSlot_cameraMono (tl : Timeline α) (opts : SlotOptions α) :
    tl.cameraBusyUntil ≤ ((tl.nextAvailableSlot opts).2).cameraBusyUntil := by
  rw [nextAvailableSlot_cameraBusyUntil]
  by_cases hc : opts.needsCamera
  · simp only [hc, if_pos]
    rw [nextAvailableSlot_currentTime, nextAvailableSlot_fst]
    have h2 : (0:α) ≤ (if opts.narrationPause then (3:α)/10 else 0) := by
      by_cases hp : opts.narrationPause <;> simp [hp] <;> norm_num
    have h3 := safeDuration_pos (α := α) opts.duration
    have h4 : tl.cameraBusyUntil ≤ max tl.currentTime tl.cameraBusyUntil :=
      le_max_right _ _
    simp only [hc, if_pos]
    linarith
  · simp [hc]

/-- C4: each allocator call returns `start = max(cursor, cameraBusyUntil)`
when a camera move is needed and `start = cursor` otherwise, adds the fixed
0.3 s breathing room exactly when a narration pause is requested, clamps the
duration (`0.5` for a non-finite input, `max 0.1 d` otherwise, always
positive), advances the cursor to `start + safeDuration + 0.1`, and sets
`cameraBusyUntil` to that end exactly when a camera move is needed; two
successive camera reservations of duration `1.0` give a second start
`≥ first + 1.0 + 0.1`, and `cameraBusyUntil` never decreases. -/
theorem C4_allocator_contract (tl : Timeline α) (opts : SlotOptions α) :
    ((tl.nextAvailableSlot opts).1 =
        (if opts.needsCamera then max tl.currentTime tl.cameraBusyUntil
         else tl.currentTime) +
        (if opts.narrationPause then 3/10 else 0)) ∧
    (safeDuration (α := α) none = 1/2) ∧
    (∀ q : α, safeDuration (some q) = max (1/10) q) ∧
    (0 < safeDuration opts.duration) ∧
    (((tl.nextAvailableSlot opts).2).currentTime =
        (tl.nextAvailableSlot opts).1 + safeDuration opts.duration + 1/10) ∧
    (((tl.nextAvailableSlot opts).2).cameraBusyUntil =
        (if opts.needsCamera then ((tl.nextAvailableSlot opts).2).currentTime
         else tl.cameraBusyUntil)) ∧
    (tl.cameraBusyUntil ≤ ((tl.nextAvailableSlot opts).2).cameraBusyUntil) ∧
    (let r1 := tl.nextAvailableSlot ⟨some 1, true, false⟩
     let r2 := r1.2.nextAvailableSlot ⟨some 1, true, false⟩
     r1.1 + 1 + 1/10 ≤ r2.1 ∧
       tl.cameraBusyUntil ≤ r1.2.cameraBusyUntil ∧
       r1.2.cameraBusyUntil ≤ r2.2.cameraBusyUntil) := by
  refine ⟨nextAvailableSlot_fst tl opts, rfl, fun q => rfl,
    safeDuration_pos _, nextAvailableSlot_currentTime tl opts,
    nextAvailableSlot_cameraBusyUntil tl opts,
    nextAvailableSlot_cameraMono tl opts, ?_, ?_, ?_⟩
  · show (tl.nextAvailableSlot ⟨some 1, true, false⟩).1 + 1 + 1/10 ≤ _
    simp only [Timeline.nextAvailableSlot, safeDuration]
    simp only [if_pos, if_neg, Bool.false_eq_true, not_false_iff, ite_false,
      ite_true]
    have h : max (1/10 : α) 1 = 1 := by
      apply max_eq_right; norm_num
    rw [h]
    exact le_max_left _ _
  · exact nextAvailableSlot_cameraMono tl _
  · exact nextAvailableSlot_cameraMono _ _

/-! ## Glyph path library (`LETTER_PATHS` in `textToPath.ts`)

Every coordinate in the source table is an integer literal, so the table is
stored over `ℤ` and cast into the ambient field at lookup time.  Each table
entry maps a character to its list of strokes; a stroke is one path. -/

/-- Cast one path command into the ambient field. -/
def PathCmd.cast : PathCmd ℤ → PathCmd α
  | .M x y => .M x y
  | .L x y => .L x y
  | .C x1 y1 x2 y2 x y => .C x1 y1 x2 y2 x y
  | .Q x1 y1 x y => .Q x1 y1 x y
  | .Z => .Z

/-- Cast a whole path into the ambient field. -/
def SvgPath.cast (p : SvgPath ℤ) : SvgPath α := p.map PathCmd.cast

/-- Upper-case rows of the `LETTER_PATHS` table, transcribed stroke by
stroke. -/
def letterPathsUpper : List (Char × List (SvgPath ℤ)) :=
  [('P', [[.M 0 30, .L 0 0, .C 20 0 25 5 25 10, .C 25 18 15 20 0 20]]),
   ('Y', [[.M 0 0, .L 12 15, .L 12 30], [.M 24 0, .L 12 15]]),
   ('T', [[.M 0 0, .L 24 0], [.M 12 0, .L 12 30]]),
   ('H', [[.M 0 0, .L 0 30], [.M 0 15, .L 20 15], [.M 20 0, .L 20 30]]),
   ('O', [[.M 12 0, .C (-2) 0 (-2) 30 12 30, .C 26 30 26 0 12 0]]),
   ('N', [[.M 0 30, .L 0 0, .L 20 30, .L 20 0]]),
   ('R', [[.M 0 30, .L 0 0, .C 20 0 22 8 20 12, .C 18 16 10 16 0 16],
          [.M 10 16, .L 22 30]]),
   ('G', [[.M 24 6, .C 18 0 6 0 2 10, .C (-2) 20 2 30 12 30,
           .C 22 30 24 22 24 16, .L 14 16]]),
   ('A', [[.M 0 30, .L 12 0, .L 24 30], [.M 6 18, .L 18 18]]),
   ('M', [[.M 0 30, .L 0 0, .L 14 20, .L 28 0, .L 28 30]]),
   ('I', [[.M 0 0, .L 16 0], [.M 8 0, .L 8 30], [.M 0 30, .L 16 30]]),
   ('L', [[.M 0 0, .L 0 30, .L 20 30]]),
   ('E', [[.M 20 0, .L 0 0, .L 0 30, .L 20 30], [.M 0 15, .L 16 15]]),
   ('S', [[.M 22 6, .C 18 0 6 0 4 6, .C 0 14 20 16 22 24, .C 24 32 6 32 2 26]]),
   ('C', [[.M 24 6, .C 18 0 6 0 2 10, .C (-2) 22 6 30 14 30,
           .C 20 30 24 26 24 26]]),
   ('D', [[.M 0 0, .L 0 30, .L 8 30, .C 26 30 26 0 8 0, .L 0 0]]),
   ('U', [[.M 0 0, .L 0 20, .C 0 32 22 32 22 20, .L 22 0]]),
   ('W', [[.M 0 0, .L 7 30, .L 14 10, .L 21 30, .L 28 0]]),
   ('B', [[.M 0 0, .L 0 30], [.M 0 0, .C 18 0 18 14 0 14, .C 20 14 20 30 0 30]]),
   ('F', [[.M 20 0, .L 0 0, .L 0 30], [.M 0 14, .L 16 14]]),
   ('V', [[.M 0 0, .L 12 30, .L 24 0]]),
   ('K', [[.M 0 0, .L 0 30], [.M 22 0, .L 0 16, .L 22 30]]),
   ('X', [[.M 0 0, .L 24 30], [.M 24 0, .L 0 30]]),
   ('Z', [[.M 0 0, .L 24 0, .L 0 30, .L 24 30]]),
   ('J', [[.M 0 0, .L 20 0], [.M 14 0, .L 14 24, .C 14 32 0 32 0 24]]),
   ('Q', [[.M 12 0, .C (-2) 0 (-2) 30 12 30, .C 26 30 26 0 12 0],
          [.M 16 22, .L 26 32]])]

/-- Lower-case rows of the `LETTER_PATHS` table. -/
def letterPathsLower : List (Char × List (SvgPath ℤ)) :=
  [('a', [[.M 0 20, .C 0 10 8 8 12 10, .C 16 8 24 10 24 20,
           .C 24 30 16 32 12 30, .C 8 32 0 30 0 20], [.M 12 20, .L 12 30]]),
   ('b', [[.M 0 0, .L 0 30],
          [.M 0 15, .C 0 8 6 6 12 8, .C 18 6 24 8 24 15,
           .C 24 22 18 24 12 22, .C 6 24 0 22 0 15]]),
   ('c', [[.M 24 10, .C 20 6 8 6 4 10, .C 0 16 4 24 12 26, .C 20 24 24 16 24 10]]),
   ('d', [[.M 24 0, .L 24 30],
          [.M 24 15, .C 24 8 18 6 12 8, .C 6 6 0 8 0 15,
           .C 0 22 6 24 12 22, .C 18 24 24 22 24 15]]),
   ('e', [[.M 0 18, .L 24 18],
          [.M 0 18, .C 0 8 8 6 16 8, .C 24 6 24 16 20 20, .C 16 24 8 24 4 20]]),
   ('f', [[.M 12 0, .L 12 30], [.M 0 8, .L 20 8], [.M 8 20, .C 12 20 16 22 16 26]]),
   ('g', [[.M 12 15, .C 12 8 6 6 0 8, .C (-4) 10 (-4) 18 0 20,
           .C 6 22 12 20 12 15], [.M 12 20, .L 12 30, .C 12 36 6 38 2 36]]),
   ('h', [[.M 0 0, .L 0 30], [.M 0 15, .L 12 15],
          [.M 12 15, .C 12 8 18 6 24 8, .C 24 14 24 20 24 30]]),
   ('i', [[.M 8 0, .L 8 20], [.M 8 30, .C 8 28 10 28 10 30, .C 10 32 8 32 8 30]]),
   ('j', [[.M 12 0, .L 12 20], [.M 12 20, .C 12 28 6 30 2 28],
          [.M 12 30, .C 12 28 14 28 14 30, .C 14 32 12 32 12 30]]),
   ('k', [[.M 0 0, .L 0 30], [.M 0 15, .L 16 0], [.M 0 15, .L 16 30]]),
   ('l', [[.M 8 0, .L 8 30], [.M 8 30, .L 4 26]]),
   ('m', [[.M 0 30, .L 0 10, .C 0 6 4 4 8 6, .C 12 4 16 6 16 10, .L 16 30],
          [.M 16 10, .C 16 6 20 4 24 6, .C 28 4 32 6 32 10, .L 32 30]]),
   ('n', [[.M 0 30, .L 0 10, .C 0 6 4 4 8 6, .C 12 4 16 6 16 10, .L 16 30]]),
   ('o', [[.M 12 10, .C 6 8 0 10 0 18, .C 0 26 6 28 12 26,
           .C 18 28 24 26 24 18, .C 24 10 18 8 12 10]]),
   ('p', [[.M 0 30, .L 0 0],
          [.M 0 15, .C 0 8 6 6 12 8, .C 18 6 24 8 24 15,
           .C 24 22 18 24 12 22, .C 6 24 0 22 0 15]]),
   ('q', [[.M 24 30, .L 24 0],
          [.M 24 15, .C 24 8 18 6 12 8, .C 6 6 0 8 0 15,
           .C 0 22 6 24 12 22, .C 18 24 24 22 24 15], [.M 18 22, .L 28 32]]),
   ('r', [[.M 0 0, .L 0 30], [.M 0 15, .C 0 10 4 8 8 10, .C 12 8 16 10 16 15]]),
   ('s', [[.M 20 8, .C 16 4 4 4 2 8, .C 0 14 18 16 20 22, .C 22 28 6 30 2 26]]),
   ('t', [[.M 8 0, .L 8 30], [.M 0 8, .L 20 8]]),
   ('u', [[.M 0 10, .C 0 6 4 4 8 6, .C 12 4 16 6 16 10, .L 16 30],
          [.M 16 10, .C 16 6 20 4 24 6, .C 28 4 32 6 32 10, .L 32 30]]),
   ('v', [[.M 0 10, .L 16 30, .L 32 10]]),
   ('w', [[.M 0 10, .L 8 30, .L 16 10, .L 24 30, .L 32 10]]),
   ('x', [[.M 0 10, .L 16 20, .L 32 10], [.M 32 30, .L 16 20, .L 0 30]]),
   ('y', [[.M 0 10, .L 16 20, .L 16 30], [.M 32 10, .L 16 20]]),
   ('z', [[.M 0 10, .L 32 10, .L 0 30, .L 32 30]])]

/-- Digit rows of the `LETTER_PATHS` table. -/
def letterPathsDigits : List (Char × List (SvgPath ℤ)) :=
  [('0', [[.M 12 0, .C 2 0 0 8 0 18, .C 0 28 2 30 12 30,
           .C 22 30 24 28 24 18, .C 24 8 22 0 12 0], [.M 0 0, .L 24 30]]),
   ('1', [[.M 8 0, .L 8 30], [.M 0 8, .L 8 0, .L 16 0]]),
   ('2', [[.M 0 8, .C 0 0 12 0 16 4, .C 20 8 20 16 4 30, .L 24 30]]),
   ('3', [[.M 0 6, .C 0 0 10 0 14 4, .C 18 8 14 12 10 12],
          [.M 0 24, .C 0 30 10 30 14 26, .C 18 22 14 18 10 18]]),
   ('4', [[.M 0 20, .L 16 0, .L 16 30], [.M 0 12, .L 24 12]]),
   ('5', [[.M 20 0, .L 4 0, .L 4 14, .C 4 18 8 20 12 18,
           .C 16 16 20 18 20 22, .C 20 28 12 30 4 28]]),
   ('6', [[.M 20 8, .C 18 4 10 2 6 6, .C 2 10 2 20 6 24,
           .C 10 28 18 26 20 22, .C 20 18 16 16 12 18]]),
   ('7', [[.M 0 0, .L 20 0], [.M 20 0, .L 8 30]]),
   ('8', [[.M 12 0, .C 4 0 0 6 0 14, .C 0 18 2 20 6 18],
          [.M 12 30, .C 4 30 0 24 0 16, .C 0 12 2 10 6 12]]),
   ('9', [[.M 4 8, .C 6 4 14 2 18 6, .C 22 10 22 20 18 24,
           .C 14 28 6 26 4 22, .C 4 18 8 16 12 18]])]

/-- Space and punctuation rows of the `LETTER_PATHS` table (the apostrophe
key is written as `Char.ofNat 39`). -/
def letterPathsPunct : List (Char × List (SvgPath ℤ)) :=
  [(' ', []),
   ('.', [[.M 4 28, .C 4 26 6 26 6 28, .C 6 30 4 30 4 28]]),
   (',', [[.M 6 26, .C 8 26 8 30 4 34]]),
   ('!', [[.M 8 0, .L 8 20], [.M 8 26, .L 8 28]]),
   ('?', [[.M 2 6, .C 2 0 14 0 14 8, .C 14 14 8 16 8 22], [.M 8 28, .L 8 30]]),
   ('-', [[.M 0 14, .L 16 14]]),
   (':', [[.M 8 8, .L 8 10], [.M 8 22, .L 8 24]]),
   (Char.ofNat 39, [[.M 8 0, .L 8 8]]),
   ('/', [[.M 0 0, .L 24 30]])]

/-- The whole `LETTER_PATHS` table. -/
def letterPaths : List (Char × List (SvgPath ℤ)) :=
  letterPathsUpper ++ letterPathsLower ++ letterPathsDigits ++ letterPathsPunct

/-- Model of `LETTER_PATHS[char]`: table lookup, cast into the ambient field. -/
def glyphLookup (c : Char) : Option (List (SvgPath α)) :=
  (letterPaths.find? (fun e => e.1 == c)).map (fun e => e.2.map SvgPath.cast)

/-- Case pairs of JavaScript `String.prototype.toUpperCase` whose image is a
key of the glyph table: the ASCII a-z → A-Z pairs together with the two
Unicode simple case mappings whose image is an ASCII letter, U+0131
(dotless i) → `I` and U+017F (long s) → `S`. -/
def lowerUpperPairs : List (Char × Char) :=
  [('a','A'),('b','B'),('c','C'),('d','D'),('e','E'),('f','F'),('g','G'),
   ('h','H'),('i','I'),('j','J'),('k','K'),('l','L'),('m','M'),('n','N'),
   ('o','O'),('p','P'),('q','Q'),('r','R'),('s','S'),('t','T'),('u','U'),
   ('v','V'),('w','W'),('x','X'),('y','Y'),('z','Z'),
   ('ı','I'),('ſ','S')]

/-- Model of `char.toUpperCase()` as observed through the table lookup
`LETTER_PATHS[char.toUpperCase()]` that is its only use in the source: all
case pairs whose image is a table key are in `lowerUpperPairs`; every other
JavaScript uppercase mapping either has a non-ASCII image or expands to
several characters (full mappings such as U+00DF to the two-letter string
SS), and for those the table lookup fails exactly as it does on the
original character, so mapping them to themselves is lookup-equivalent to
the source. -/
def jsToUpper (c : Char) : Char :=
  match lowerUpperPairs.find? (fun p => p.1 == c) with
  | some p => p.2
  | none => c

/-- Model of `transformPathString(path, offsetX, offsetY, scale)`: the source scales
and translates every coordinate pair of the path string; command letters are
preserved. -/
def PathCmd.transform (scale offsetX offsetY : α) : PathCmd α → PathCmd α
  | .M x y => .M (x * scale + offsetX) (y * scale + offsetY)
  | .L x y => .L (x * scale + offsetX) (y * scale + offsetY)
  | .C x1 y1 x2 y2 x y =>
      .C (x1 * scale + offsetX) (y1 * scale + offsetY)
        (x2 * scale + offsetX) (y2 * scale + offsetY)
        (x * scale + offsetX) (y * scale + offsetY)
  | .Q x1 y1 x y =>
      .Q (x1 * scale + offsetX) (y1 * scale + offsetY)
        (x * scale + offsetX) (y * scale + offsetY)
  | .Z => .Z

def transformPathString (p : SvgPath α) (offsetX offsetY scale : α) : SvgPath α :=
  p.map (PathCmd.transform scale offsetX offsetY)

/-- The placeholder rectangle the source emits for an unknown character. -/
def placeholderRect (x y scale : α) : SvgPath α :=
  [.M x y, .L (x + 15 * scale) y, .L (x + 15 * scale) (y + 25 * scale),
   .L x (y + 25 * scale), .Z]

/-- Model of `getCharacterPath(char, x, y, scale)`: looks the character up (falling
back to its upper-case form), emits the placeholder rectangle for an unknown
non-space character, and otherwise transforms each stroke to the target
position. -/
def getCharacterPath (char : Char) (x y scale : α) : List (SvgPath α) :=
  let paths :=
    (glyphLookup (α := α) char).orElse (fun _ => glyphLookup (jsToUpper char))
  match paths with
  | none => if char ≠ ' ' then [placeholderRect x y scale] else []
  | some ps =>
      if ps.isEmpty then
        (if char ≠ ' ' then [placeholderRect x y scale] else [])
      else ps.map (fun p => transformPathString p x y scale)

/-- Model of `estimatePathLength`: `max(number of command letters × 40, 60)`. -/
def estimatePathLength (p : SvgPath α) : α :=
  max ((p.length : α) * 40) 60

/-- One entry of `textToPathSegments`' result: `{ d, length }`. -/
structure PathSegment (α : Type) where
  d : SvgPath α
  length : α
  deriving DecidableEq, Repr

/-- The character loop of `textToPathSegments`: spaces advance the cursor by
`16 × scale`, every other character contributes its glyph strokes and
advances the cursor by `28 × scale`. -/
def textToPathSegmentsAux (baseY scale : α) :
    List Char → α → List (PathSegment α)
  | [], _ => []
  | c :: rest, currentX =>
    if c = ' ' then textToPathSegmentsAux baseY scale rest (currentX + 16 * scale)
    else
      ((getCharacterPath c currentX baseY scale).map
        (fun p => ⟨p, estimatePathLength p⟩)) ++
        textToPathSegmentsAux baseY scale rest (currentX + 28 * scale)

/-- Model of `textToPathSegments(text, startPos, scale)`. -/
def textToPathSegments (text : String) (startPos : Pos α) (scale : α) :
    List (PathSegment α) :=
  textToPathSegmentsAux startPos.y scale text.toList startPos.x

/-! ## Path generators -/

/-- Model of `generateUnderlinePath(startX, endX, y)`. -/
def generateUnderlinePath (startX endX y : α) : SvgPath α :=
  [.M startX y, .Q ((startX + endX) / 2) (y + 2) endX y]

/-- Model of `generateCirclePath(centerX, centerY, radius)`: four cubic Bezier arcs
with the circle-approximation constant `k = 0.552284749831`. -/
def generateCirclePath (centerX centerY radius : α) : SvgPath α :=
  let r := radius
  let k : α := 552284749831 / 1000000000000
  [.M centerX (centerY - r),
   .C (centerX + r * k) (centerY - r) (centerX + r) (centerY - r * k)
     (centerX + r) centerY,
   .C (centerX + r) (centerY + r * k) (centerX + r * k) (centerY + r)
     centerX (centerY + r),
   .C (centerX - r * k) (centerY + r) (centerX - r) (centerY + r * k)
     (centerX - r) centerY,
   .C (centerX - r) (centerY - r * k) (centerX - r * k) (centerY - r)
     centerX (centerY - r)]

variable [DecidableEq α]

/-- Model of `generateArrowPath(from, to, curve)`: the (possibly curved) line path and
the arrow-head path, computed from the terminal tangent angle with head
length 14 and head half-angle `π/6`. -/
def generateArrowPath (ops : MathOps α) (fromPos toPos : Pos α) (curve : α) :
    SvgPath α × SvgPath α :=
  let midX := (fromPos.x + toPos.x) / 2
  let midY := (fromPos.y + toPos.y) / 2
  let dx := toPos.x - fromPos.x
  let dy := toPos.y - fromPos.y
  let perpX := -dy * curve
  let perpY := dx * curve
  let controlX := midX + perpX
  let controlY := midY + perpY
  let linePath : SvgPath α :=
    if curve = 0 then [.M fromPos.x fromPos.y, .L toPos.x toPos.y]
    else [.M fromPos.x fromPos.y, .Q controlX controlY toPos.x toPos.y]
  let angle := ops.atan2 (toPos.y - (if curve = 0 then fromPos.y else controlY))
    (toPos.x - (if curve = 0 then fromPos.x else controlX))
  let headLength : α := 14
  let headAngle := ops.pi / 6
  let head1X := toPos.x - headLength * ops.cos (angle - headAngle)
  let head1Y := toPos.y - headLength * ops.sin (angle - headAngle)
  let head2X := toPos.x - headLength * ops.cos (angle + headAngle)
  let head2Y := toPos.y - headLength * ops.sin (angle + headAngle)
  let headPath : SvgPath α := [.M head1X head1Y, .L toPos.x toPos.y,
    .L head2X head2Y]
  (linePath, headPath)

/-! ## Stroke compiler (`TextStrokeCompiler`) -/

/-- Drawing speed setting. -/
inductive Speed where
  | slow
  | medium
  | fast
  deriving DecidableEq, Repr

/-- The `durationPerChar` lookup table: 0.15 / 0.1 / 0.06. -/
def durationPerChar : Speed → α
  | .slow => 15/100
  | .medium => 10/100
  | .fast => 6/100

/-- One timed stroke: `{ path, duration, pressure }`. -/
structure TimedStroke (α : Type) where
  path : SvgPath α
  duration : α
  pressure : Option α := none
  deriving DecidableEq, Repr

/-- Model of `TextStrokeCompiler.compile(text, position, fontSize, speed)`. -/
def TextStrokeCompiler.compile (text : String) (position : Pos α)
    (fontSize : α) (speed : Speed) : List (TimedStroke α) :=
  let scale := fontSize / 30
  let segments := textToPathSegments text position scale
  segments.map (fun segment =>
    let estimatedLength := segment.length
    let duration :=
      max (1/10) (min (estimatedLength * durationPerChar speed / 100) (1/2))
    { path := segment.d, duration := duration, pressure := some 1 })

/-! ## Enclosed area (formalization vocabulary for claim C7)

The source has no area function; "the placeholder path encloses strictly
positive area" is formalized with the shoelace formula over the polygon the
path's `M`/`L` commands trace (the placeholder is a pure `M`-`L`-`Z`
rectangle). -/

/-- End point of every coordinate-carrying command, in order. -/
def pathVertices : SvgPath α → List (Pos α)
  | [] => []
  | .M x y :: rest => ⟨x, y⟩ :: pathVertices rest
  | .L x y :: rest => ⟨x, y⟩ :: pathVertices rest
  | .C _ _ _ _ x y :: rest => ⟨x, y⟩ :: pathVertices rest
  | .Q _ _ x y :: rest => ⟨x, y⟩ :: pathVertices rest
  | .Z :: rest => pathVertices rest

/-- Cross product term of the shoelace formula. -/
def crossTerm (p q : Pos α) : α := p.x * q.y - q.x * p.y

/-- Shoelace sum of consecutive vertices, closing back to `first`. -/
def shoelaceAux (first : Pos α) : List (Pos α) → α
  | [] => 0
  | [p] => crossTerm p first
  | p :: q :: rest => crossTerm p q + shoelaceAux first (q :: rest)

/-- Signed doubled area of the polygon through the given vertices. -/
def shoelace : List (Pos α) → α
  | [] => 0
  | p :: rest => shoelaceAux p (p :: rest)

/-- Absolute enclosed area of the polygon a path traces. -/
def enclosedArea (p : SvgPath α) : α := |shoelace (pathVertices p)| / 2

/-! Facts about the glyph lookup. -/

/-- C7 counterexample: the character `'ſ'` (U+017F, Latin small letter long s)
has no glyph-table entry and is not a space, yet at anchor `(0, 0)` and
scale `1` the lookup does not return the placeholder rectangle: JavaScript
uppercases `'ſ'` to `'S'`, whose glyph is in the table, so the source
returns the transformed strokes of `S` instead. -/
theorem C7_counterexample_unicode_uppercase :
    glyphLookup (α := ℚ) 'ſ' = none ∧ 'ſ' ≠ ' ' ∧ (0:ℚ) < 1 ∧
      getCharacterPath 'ſ' (0:ℚ) 0 1 ≠ [placeholderRect 0 0 1] ∧
      getCharacterPath 'ſ' (0:ℚ) 0 1 =
        [[.M 22 6, .C 18 0 6 0 4 6, .C 0 14 20 16 22 24,
          .C 24 32 6 32 2 26]] := by
  have hnone : glyphLookup (α := ℚ) 'ſ' = none := by decide
  have hup : jsToUpper 'ſ' = 'S' := by decide
  have hS : glyphLookup (α := ℚ) 'S' =
      some [[.M 22 6, .C 18 0 6 0 4 6, .C 0 14 20 16 22 24,
             .C 24 32 6 32 2 26]] := by decide
  have heval : getCharacterPath 'ſ' (0:ℚ) 0 1 =
      [[.M 22 6, .C 18 0 6 0 4 6, .C 0 14 20 16 22 24,
        .C 24 32 6 32 2 26]] := by
    simp only [getCharacterPath, hnone, hup, hS, Option.orElse,
      transformPathString, List.map, PathCmd.transform, List.isEmpty]
    norm_num [PathCmd.M.injEq, PathCmd.C.injEq]
  refine ⟨hnone, by decide, by norm_num, ?_, heval⟩
  rw [heval]
  simp [placeholderRect]

/-- C7 (amended): for a character that has no glyph-table entry and whose
JavaScript uppercase form has no glyph-table entry either, other than a
space, at any anchor and positive scale, the lookup returns exactly one
placeholder rectangle stroke scaled to the nominal glyph cell (15 × 25
units), and the rectangle encloses strictly positive area (it is a total
function, so no exception can occur).  The uppercase hypothesis is forced:
without it the statement fails at `'ſ'` and `'ı'`, whose uppercase forms
`S` and `I` are in the table. -/
theorem C7_unmapped_char_placeholder (c : Char) (x y s : α)
    (hc : glyphLookup (α := α) c = none)
    (hu : glyphLookup (α := α) (jsToUpper c) = none)
    (hsp : c ≠ ' ') (hs : 0 < s) :
    getCharacterPath c x y s = [placeholderRect x y s] ∧
      0 < enclosedArea (placeholderRect x y s) := by
  constructor
  · unfold getCharacterPath
    rw [hc, hu]
    simp [Option.orElse, hsp]
  · have hv : shoelace (pathVertices (placeholderRect x y s)) = 750 * s^2 := by
      simp only [placeholderRect, pathVertices, shoelace, shoelaceAux,
        crossTerm]
      ring
    rw [enclosedArea, hv, abs_of_nonneg (by positivity)]
    positivity

/-- C7 witness: the character `@` has no glyph entry, its uppercase form is
itself, and it yields the positive-area placeholder at anchor `(0, 0)` and
scale `1`. -/
theorem C7_unmapped_char_placeholder_witness :
    glyphLookup (α := ℚ) '@' = none ∧
      glyphLookup (α := ℚ) (jsToUpper '@') = none ∧ '@' ≠ ' ' ∧ (0:ℚ) < 1 ∧
      (getCharacterPath '@' (0:ℚ) 0 1 = [placeholderRect 0 0 1] ∧
        0 < enclosedArea (placeholderRect (0:ℚ) 0 1)) :=
  ⟨by decide, by decide, by decide, by norm_num,
   C7_unmapped_char_placeholder '@' 0 0 1 (by decide) (by decide) (by decide)
     (by norm_num)⟩

/-! Facts about the stroke compiler. -/

theorem textToPathSegmentsAux_length_eq (baseY scale : α) :
    ∀ (cs : List Char) (currentX : α) (seg : PathSegment α),
      seg ∈ textToPathSegmentsAux baseY scale cs currentX →
        seg.length = estimatePathLength seg.d := by
  intro cs
  induction cs with
  | nil =>
    intro currentX seg h
    simp [textToPathSegmentsAux] at h
  | cons c rest ih =>
    intro currentX seg h
    by_cases hsp : c = ' '
    · rw [textToPathSegmentsAux, if_pos hsp] at h
      exact ih _ seg h
    · rw [textToPathSegmentsAux, if_neg hsp] at h
      rcases List.mem_append.mp h with h1 | h2
      · obtain ⟨p, _, rfl⟩ := List.mem_map.mp h1
        rfl
      · exact ih _ seg h2

/-- C8: every stroke the stroke compiler emits has duration
`clamp(estimatedLength × durationPerChar(speed) / 100, 0.1, 0.5)` where the
per-character duration is 0.15 / 0.10 / 0.06 for slow / medium / fast, so
every stroke duration lies in `[0.1, 0.5]`. -/
theorem C8_stroke_duration_formula (text : String) (position : Pos α)
    (fontSize : α) (speed : Speed) (st : TimedStroke α)
    (hst : st ∈ TextStrokeCompiler.compile text position fontSize speed) :
    st.duration =
      max (1/10)
        (min (estimatePathLength st.path * durationPerChar speed / 100) (1/2)) ∧
    (durationPerChar (α := α) .slow = 15/100 ∧
      durationPerChar (α := α) .medium = 10/100 ∧
      durationPerChar (α := α) .fast = 6/100) ∧
    1/10 ≤ st.duration ∧ st.duration ≤ 1/2 := by
  obtain ⟨seg, hseg, rfl⟩ := List.mem_map.mp hst
  have hlen : seg.length = estimatePathLength seg.d :=
    textToPathSegmentsAux_length_eq _ _ _ _ seg hseg
  refine ⟨?_, ⟨rfl, rfl, rfl⟩, le_max_left _ _, ?_⟩
  · show max (1/10) (min (seg.length * durationPerChar speed / 100) (1/2)) =
      max (1/10) (min (estimatePathLength seg.d * durationPerChar speed / 100)
        (1/2))
    rw [hlen]
  · exact max_le (by norm_num) (min_le_right _ _)

/-- Concrete evaluation: compiling the text `"-"` at font size 30 (scale 1)
and medium speed yields one stroke of duration `0.1`. -/
theorem compileDash_eval :
    TextStrokeCompiler.compile "-" (⟨0, 0⟩ : Pos ℚ) 30 .medium =
      [⟨[.M 0 14, .L 16 14], 1/10, some 1⟩] := by
  have hl : glyphLookup (α := ℚ) '-' = some [[.M 0 14, .L 16 14]] := by decide
  simp only [TextStrokeCompiler.compile, textToPathSegments,
    textToPathSegmentsAux, getCharacterPath, hl, Option.orElse,
    transformPathString, PathCmd.transform, estimatePathLength,
    durationPerChar, List.map, List.isEmpty, List.length]
  norm_num [SvgPath.cast, PathCmd.cast, min_def, max_def, PathCmd.M.injEq,
    PathCmd.L.injEq]

/-- C8 witness: a concrete stroke compiled from the text `"-"` at font size
30 and medium speed satisfies the duration formula and bounds. -/
theorem C8_stroke_duration_formula_witness :
    ∃ st ∈ TextStrokeCompiler.compile "-" (⟨0, 0⟩ : Pos ℚ) 30 .medium,
      st.duration =
        max (1/10)
          (min (estimatePathLength st.path * durationPerChar .medium / 100)
            (1/2)) ∧
      (durationPerChar (α := ℚ) .slow = 15/100 ∧
        durationPerChar (α := ℚ) .medium = 10/100 ∧
        durationPerChar (α := ℚ) .fast = 6/100) ∧
      1/10 ≤ st.duration ∧ st.duration ≤ 1/2 := by
  refine ⟨⟨[.M 0 14, .L 16 14], 1/10, some 1⟩, ?_, ?_⟩
  · rw [compileDash_eval]
    exact List.mem_singleton_self _
  · exact C8_stroke_duration_formula "-" ⟨0, 0⟩ 30 .medium _
      (by rw [compileDash_eval]; exact List.mem_singleton_self _)

/-! ## Whiteboard data model (`types/whiteboard.ts`) -/

/-- The `DrawingActionType` union. -/
inductive DrawingActionType where
  | write
  | draw
  | circle
  | arrow
  | underline
  | box
  | highlight
  | erase
  | image
  | pause
  deriving DecidableEq, Repr

/-- A content-item style value: absent, a number (`none` inside models a
non-finite number), or a string such as `"50%"`. -/
inductive StyleVal (α : Type) where
  | undef
  | num (v : Option α)
  | str (s : String)
  deriving DecidableEq, Repr

/-- The `style` object of a content item (only `x`/`y` are read). -/
structure Style (α : Type) where
  x : StyleVal α := .undef
  y : StyleVal α := .undef
  deriving DecidableEq, Repr

/-- One camera target `{x, y, zoom}`. -/
structure CameraTarget (α : Type) where
  x : α
  y : α
  zoom : α
  deriving DecidableEq, Repr

/-- The `metadata.cameraMove` record. -/
structure CameraMove (α : Type) where
  src : CameraTarget α
  dst : CameraTarget α
  deriving DecidableEq, Repr

/-- Action metadata (the kind-specific fields actually written by the scene
compiler and read by the engine). -/
structure ActionMetadata (α : Type) where
  strokeWidth : Option α := none
  opacity : Option α := none
  width : Option α := none
  height : Option α := none
  strokes : Option (List (TimedStroke α)) := none
  strokeSequence : Option (List (TimedStroke α)) := none
  cameraMove : Option (CameraMove α) := none
  imageUrl : Option String := none
  caption : Option String := none
  style : Option (Style α) := none
  deriving DecidableEq, Repr

/-- The `DrawingAction` record.  The source's `end` field is called `endPos`
(`end` is reserved); its `path` string is the structural `SvgPath` (`some []`
models the empty string `''`, `none` an absent field). -/
structure DrawingAction (α : Type) where
  id : String := ""
  type : DrawingActionType
  startTime : α
  duration : α
  text : Option String := none
  fontSize : Option α := none
  fontFamily : Option String := none
  position : Option (Pos α) := none
  color : Option String := none
  path : Option (SvgPath α) := none
  start : Option (Pos α) := none
  endPos : Option (Pos α) := none
  radius : Option α := none
  imageUrl : Option String := none
  targetId : Option String := none
  speed : Option Speed := none
  handVisible : Option Bool := none
  metadata : Option (ActionMetadata α) := none
  deriving DecidableEq, Repr

/-- A sampled path point `{x, y, progress, time}`. -/
structure PathPoint (α : Type) where
  x : α
  y : α
  progress : α
  time : α
  deriving DecidableEq, Repr

/-- Result record of `getHandPosition`: `{ position, angle? }`. -/
structure HandData (α : Type) where
  position : Pos α
  angle : Option α := none
  deriving DecidableEq, Repr

/-- The evaluator's output `ActionAnimationState`. -/
structure ActionAnimationState (α : Type) where
  action : DrawingAction α
  currentProgress : α
  pathPoints : List (PathPoint α)
  isComplete : Bool
  handPosition : Option (Pos α) := none
  handAngle : Option α := none
  deriving DecidableEq, Repr

/-! ## JavaScript helpers -/

/-- JavaScript `x || d` on a number already known to be finite: `0` is falsy. -/
def jsOr0 (x d : α) : α := if x = 0 then d else x

/-- JavaScript `x || d` on an optional number: `undefined` and `0` are falsy. -/
def jsOrOpt (v : Option α) (d : α) : α :=
  match v with
  | none => d
  | some x => jsOr0 x d

/-- Truthiness of an optional string (`undefined` and `''` are falsy). -/
def jsTruthyStr (v : Option String) : Bool :=
  match v with
  | none => false
  | some s => !(s == "")

/-- The DOM-based `calculatePathPoints(pathString, duration)` (fixed 30 fps)
cannot be embedded; the engine is parameterized over it. -/
abbrev PathSampler (α : Type) : Type := SvgPath α → α → List (PathPoint α)

/-! ## `WhiteboardEngine.getHandPosition` -/

variable [FloorRing α]

/-- The `for (const stroke of strokes)` loop in the `write` branch of
`getHandPosition`: find the live stroke at `currentDrawTime` and sample its
path (the returned angle is forced to `0` for text strokes). -/
def strokeHandLoop (sampler : PathSampler α) (currentDrawTime : α) :
    List (TimedStroke α) → α → Option (HandData α)
  | [], _ => none
  | stroke :: rest, currentTime =>
    let strokeStart := currentTime
    let strokeEnd := currentTime + jsOr0 stroke.duration (1/10)
    if strokeStart ≤ currentDrawTime ∧ currentDrawTime ≤ strokeEnd then
      let strokeProgress := (currentDrawTime - strokeStart) /
        jsOr0 stroke.duration (1/10)
      let pathPoints := sampler stroke.path (jsOr0 stroke.duration (1/10))
      if 0 < pathPoints.length then
        let pointIndex := min (pathPoints.length - 1)
          (Int.toNat ⌊strokeProgress * ((pathPoints.length : α) - 1)⌋)
        let point := pathPoints.getD pointIndex ⟨0, 0, 0, 0⟩
        some ⟨⟨point.x, point.y⟩, some 0⟩
      else strokeHandLoop sampler currentDrawTime rest strokeEnd
    else strokeHandLoop sampler currentDrawTime rest strokeEnd

/-- The non-`write` part of `getHandPosition`: generic path sampling, then
the straight-segment `arrow` rule, then the diagonal `image` wipe, then the
static `position` fallback. -/
def handNonWrite (ops : MathOps α) (sampler : PathSampler α)
    (action : DrawingAction α) (actionProgress : α) : Option (HandData α) :=
  let pathRes : Option (HandData α) :=
    match action.path with
    | some pth =>
      if pth.isEmpty then none
      else
        let pathPoints := sampler pth action.duration
        if 0 < pathPoints.length then
          let pointIndex := min (pathPoints.length - 1)
            (Int.toNat ⌊actionProgress * ((pathPoints.length : α) - 1)⌋)
          let point := pathPoints.getD pointIndex ⟨0, 0, 0, 0⟩
          let angle :=
            if 0 < pointIndex then
              let prevPoint := pathPoints.getD (pointIndex - 1) ⟨0, 0, 0, 0⟩
              ops.atan2 (point.y - prevPoint.y) (point.x - prevPoint.x)
            else if 1 < pathPoints.length then
              let nextPoint := pathPoints.getD 1 ⟨0, 0, 0, 0⟩
              ops.atan2 (nextPoint.y - point.y) (nextPoint.x - point.x)
            else 0
          some ⟨⟨point.x, point.y⟩, some angle⟩
        else none
    | none => none
  match pathRes with
  | some h => some h
  | none =>
    match action.type, action.start, action.endPos with
    | .arrow, some s, some e =>
      let dx := e.x - s.x
      let dy := e.y - s.y
      let distance := ops.sqrt (dx * dx + dy * dy)
      let currentDistance := distance * actionProgress
      let angle := ops.atan2 dy dx
      some ⟨⟨s.x + ops.cos angle * currentDistance,
        s.y + ops.sin angle * currentDistance⟩, some angle⟩
    | _, _, _ =>
      match action.type, action.position with
      | .image, some pos =>
        let width := jsOrOpt (action.metadata.bind ActionMetadata.width) 400
        let height := jsOrOpt (action.metadata.bind ActionMetadata.height) 300
        let startX := pos.x - width / 2
        let startY := pos.y - height / 2
        let blobX := startX + width * actionProgress
        let blobY := startY + height * actionProgress
        some ⟨⟨blobX, blobY⟩, some (ops.pi / 4)⟩
      | _, _ =>
        match action.position with
        | some pos => some ⟨pos, some 0⟩
        | none => none

/-- The `write` branch of `getHandPosition` (text and position known to be
truthy): follow the live sub-stroke, else fall back to the average
character-width cursor estimate. -/
def handWrite (sampler : PathSampler α) (action : DrawingAction α)
    (t : String) (pos : Pos α) (actionProgress : α) : Option (HandData α) :=
  let loopRes : Option (HandData α) :=
    match action.metadata.bind ActionMetadata.strokes with
    | some strokes =>
      if strokes.isEmpty then none
      else
        let totalDuration :=
          strokes.foldl (fun sum s => sum + jsOr0 s.duration (1/10)) 0
        let currentDrawTime := totalDuration * actionProgress
        strokeHandLoop sampler currentDrawTime strokes 0
    | none => none
  match loopRes with
  | some h => some h
  | none =>
    let fs := jsOrOpt action.fontSize 48
    let charsToShow := Int.toNat ⌊(t.length : α) * actionProgress⌋
    let charWidth := fs * (6/10)
    let textWidth := (charsToShow : α) * charWidth
    some ⟨⟨pos.x + textWidth, pos.y + fs / 2⟩, some 0⟩

/-- Model of `WhiteboardEngine.getHandPosition(action, currentTime, sceneStartTime)`. -/
def getHandPosition (ops : MathOps α) (sampler : PathSampler α)
    (action : DrawingAction α) (currentTime sceneStartTime : α) :
    Option (HandData α) :=
  let actionStartTime := sceneStartTime + action.startTime
  let actionEndTime := actionStartTime + action.duration
  if currentTime < actionStartTime ∨ actionEndTime < currentTime then none
  else
    let actionProgress :=
      min 1 (max 0 ((currentTime - actionStartTime) / action.duration))
    match action.type, action.text, action.position with
    | .write, some t, some pos =>
      if t = "" then handNonWrite ops sampler action actionProgress
      else handWrite sampler action t pos actionProgress
    | _, _, _ => handNonWrite ops sampler action actionProgress

/-- Model of `WhiteboardEngine.getActionState(action, currentTime, sceneStartTime)`. -/
def getActionState (ops : MathOps α) (sampler : PathSampler α)
    (action : DrawingAction α) (currentTime sceneStartTime : α) :
    ActionAnimationState α :=
  let actionStartTime := sceneStartTime + action.startTime
  let actionEndTime := actionStartTime + action.duration
  let currentProgress : α :=
    if currentTime < actionStartTime then 0
    else if actionEndTime ≤ currentTime then 1
    else (currentTime - actionStartTime) / action.duration
  let isComplete : Bool :=
    if currentTime < actionStartTime then false
    else if actionEndTime ≤ currentTime then true
    else false
  let pathPoints : List (PathPoint α) :=
    match action.path with
    | some pth => if pth.isEmpty then [] else sampler pth action.duration
    | none => []
  let handData : Option (HandData α) :=
    if action.handVisible ≠ some false then
      getHandPosition ops sampler action currentTime sceneStartTime
    else none
  { action := action
    currentProgress := currentProgress
    pathPoints := pathPoints
    isComplete := isComplete
    handPosition := handData.map HandData.position
    handAngle := handData.bind HandData.angle }

/-! ## Facts about the action-state evaluator -/

theorem getActionState_currentProgress (ops : MathOps α)
    (sampler : PathSampler α) (action : DrawingAction α)
    (currentTime sceneStartTime : α) :
    (getActionState ops sampler action currentTime
        sceneStartTime).currentProgress =
      if currentTime < sceneStartTime + action.startTime then 0
      else if sceneStartTime + action.startTime + action.duration ≤
          currentTime then 1
      else (currentTime - (sceneStartTime + action.startTime)) /
        action.duration := by
  simp only [getActionState]

theorem getActionState_isComplete (ops : MathOps α) (sampler : PathSampler α)
    (action : DrawingAction α) (currentTime sceneStartTime : α) :
    (getActionState ops sampler action currentTime sceneStartTime).isComplete =
      if currentTime < sceneStartTime + action.startTime then false
      else if sceneStartTime + action.startTime + action.duration ≤
          currentTime then true
      else false := by
  simp only [getActionState]

/-- C2: for an action of positive duration the evaluator returns progress 0
strictly before the action's start, progress 1 and `isComplete` at or past
`startTime + duration`, linear interpolation in between, and in all cases
progress lies in `[0, 1]`, with `isComplete` implying progress 1. -/
theorem C2_progress_evaluation (ops : MathOps α) (sampler : PathSampler α)
    (action : DrawingAction α) (currentTime sceneStartTime : α)
    (hd : 0 < action.duration) :
    (currentTime < sceneStartTime + action.startTime →
      (getActionState ops sampler action currentTime
        sceneStartTime).currentProgress = 0) ∧
    (sceneStartTime + action.startTime + action.duration ≤ currentTime →
      (getActionState ops sampler action currentTime
        sceneStartTime).currentProgress = 1 ∧
      (getActionState ops sampler action currentTime
        sceneStartTime).isComplete = true) ∧
    (sceneStartTime + action.startTime ≤ currentTime →
      currentTime < sceneStartTime + action.startTime + action.duration →
      (getActionState ops sampler action currentTime
        sceneStartTime).currentProgress =
        (currentTime - (sceneStartTime + action.startTime)) /
          action.duration) ∧
    0 ≤ (getActionState ops sampler action currentTime
      sceneStartTime).currentProgress ∧
    (getActionState ops sampler action currentTime
      sceneStartTime).currentProgress ≤ 1 ∧
    ((getActionState ops sampler action currentTime
        sceneStartTime).isComplete = true →
      (getActionState ops sampler action currentTime
        sceneStartTime).currentProgress = 1) := by
  rw [getActionState_currentProgress, getActionState_isComplete]
  set s := sceneStartTime + action.startTime with hs
  refine ⟨?_, ?_, ?_, ?_, ?_, ?_⟩
  · intro h
    rw [if_pos h]
  · intro h
    have h1 : ¬ currentTime < s := by
      push_neg
      linarith
    simp only [if_neg h1, if_pos h]
    exact ⟨by simp, by simp⟩
  · intro h1 h2
    simp only [if_neg (not_lt.mpr h1), if_neg (not_le.mpr h2)]
  · split_ifs with h1 h2
    · exact le_refl 0
    · norm_num
    · push_neg at h1
      exact div_nonneg (by linarith) (le_of_lt hd)
  · split_ifs with h1 h2
    · norm_num
    · exact le_refl 1
    · push_neg at h1 h2
      rw [div_le_one hd]
      linarith
  · split_ifs with h1 h2
    · intro h
      exact absurd h (by simp)
    · intro _
      rfl
    · intro h
      exact absurd h (by simp)

/-- Computable stand-in math operations: the generic theorems hold for every
`MathOps` value, so concrete rational evaluations may use this one. -/
def qOps : MathOps ℚ := ⟨fun _ => 0, fun _ => 0, fun _ => 0, fun _ _ => 0, 0⟩

/-- A path sampler producing no points (the source's failure fallback). -/
def qSampler : PathSampler ℚ := fun _ _ => []

/-- A concrete pause action starting at 1 with duration 2. -/
def pauseActQ : DrawingAction ℚ := { type := .pause, startTime := 1, duration := 2 }

/-- C2 witness: the evaluator on a pause action starting at 1 with duration 2,
queried at time 2, satisfies all the progress case laws; in particular its
progress there is `(2 - 1) / 2`. -/
theorem C2_progress_evaluation_witness :
    (0:ℚ) < pauseActQ.duration ∧
    ((0:ℚ) + pauseActQ.startTime ≤ 2 → (2:ℚ) < 0 + pauseActQ.startTime +
        pauseActQ.duration →
      (getActionState qOps qSampler pauseActQ 2 0).currentProgress =
        (2 - ((0:ℚ) + pauseActQ.startTime)) / pauseActQ.duration) := by
  constructor
  · norm_num [pauseActQ]
  · exact (C2_progress_evaluation qOps qSampler pauseActQ 2 0
      (by norm_num [pauseActQ])).2.2.1

/-- C3: for an action of positive duration, the evaluator's progress is
monotone non-decreasing in the queried time. -/
theorem C3_progress_monotone (ops : MathOps α) (sampler : PathSampler α)
    (action : DrawingAction α) (sceneStartTime t1 t2 : α)
    (hd : 0 < action.duration) (h12 : t1 ≤ t2) :
    (getActionState ops sampler action t1 sceneStartTime).currentProgress ≤
      (getActionState ops sampler action t2 sceneStartTime).currentProgress := by
  rw [getActionState_currentProgress, getActionState_currentProgress]
  set s := sceneStartTime + action.startTime with hs
  by_cases c1 : t1 < s
  · rw [if_pos c1]
    split_ifs with d1 d2
    · exact le_refl 0
    · norm_num
    · push_neg at d1
      exact div_nonneg (by linarith) (le_of_lt hd)
  · rw [if_neg c1]
    push_neg at c1
    have c1' : ¬ t2 < s := by
      push_neg
      linarith
    rw [if_neg c1']
    by_cases c2 : s + action.duration ≤ t1
    · rw [if_pos c2, if_pos (by linarith : s + action.duration ≤ t2)]
    · rw [if_neg c2]
      push_neg at c2
      by_cases c3 : s + action.duration ≤ t2
      · rw [if_pos c3, div_le_one hd]
        linarith
      · rw [if_neg c3]
        exact (div_le_div_right hd).mpr (by linarith)

/-- C3 witness: monotone progress on a concrete pause action between times 1
and 2. -/
theorem C3_progress_monotone_witness :
    (0:ℚ) < pauseActQ.duration ∧ (1:ℚ) ≤ 2 ∧
    (getActionState qOps qSampler pauseActQ (1:ℚ) 0).currentProgress ≤
      (getActionState qOps qSampler pauseActQ (2:ℚ) 0).currentProgress :=
  ⟨by norm_num [pauseActQ], by norm_num,
    C3_progress_monotone qOps qSampler pauseActQ 0 1 2
      (by norm_num [pauseActQ]) (by norm_num)⟩

/-! ## The arrow hand-position rule over `ℝ` -/

/-- JavaScript `Math.atan2`, in its standard piecewise definition. -/
noncomputable def jsAtan2 (y x : ℝ) : ℝ :=
  if 0 < x then Real.arctan (y / x)
  else if x < 0 then
    (if 0 ≤ y then Real.arctan (y / x) + Real.pi
     else Real.arctan (y / x) - Real.pi)
  else
    (if 0 < y then Real.pi / 2
     else if y < 0 then -(Real.pi / 2)
     else 0)

/-- The real float math library. -/
noncomputable def realOps : MathOps ℝ :=
  ⟨Real.sqrt, Real.cos, Real.sin, jsAtan2, Real.pi⟩

/-- A concrete arrow action from `(0,0)` to `(100,0)` with no path. -/
noncomputable def arrowAction : DrawingAction ℝ :=
  { type := .arrow
    startTime := 0
    duration := 1
    start := some ⟨0, 0⟩
    endPos := some ⟨100, 0⟩ }

/-- C10: evaluating the hand position of an arrow action from `(0,0)` to
`(100,0)` with no sampled path points at 50 % progress (time 0.5 of a
duration-1 action) yields position `(50, 0)` by linear interpolation and the
segment's angle `0` — for every path sampler, since the action carries no
path. -/
theorem C10_arrow_hand_midpoint (sampler : PathSampler ℝ) :
    getHandPosition realOps sampler arrowAction (1/2) 0 =
      some ⟨⟨50, 0⟩, some 0⟩ := by
  have hs : Real.sqrt 10000 = 100 := by
    rw [show (10000 : ℝ) = 100 ^ 2 by norm_num]
    exact Real.sqrt_sq (by norm_num)
  have ha : jsAtan2 0 100 = 0 := by
    rw [jsAtan2, if_pos (by norm_num : (0:ℝ) < 100)]
    norm_num [Real.arctan_zero]
  simp only [getHandPosition, arrowAction, handNonWrite, realOps]
  norm_num [hs, ha, Real.cos_zero, Real.sin_zero, min_def, max_def]

/-! ## Scene compiler input model (`WhiteboardSceneGenerator`) -/

/-- Model of `semantic.metadata` (`{...style, caption}`). -/
structure SemanticMeta (α : Type) where
  style : Style α := {}
  caption : Option String := none
  deriving DecidableEq, Repr

/-- The emphasis method union. -/
inductive EmphasisMethod where
  | circle
  | underline
  | highlight
  deriving DecidableEq, Repr

/-- The `SemanticAction` union (the source's `from`/`to` fields are `src`/
`dst` here; `from` is reserved). -/
inductive SemanticAction (α : Type) where
  | introduce_concept (concept : String) (position : Option (Pos α))
      (isExplicitVisual : Option Bool) (metadata : Option (SemanticMeta α))
  | explain_relation (src dst : String) (fromPos toPos : Option (Pos α))
  | emphasize (target : String) (method : EmphasisMethod)
  | pause_for_thinking (duration : α)
  | transition (dst : String)
  deriving DecidableEq, Repr

/-- One slide-level content item. -/
structure ContentItem (α : Type) where
  type : String
  content : String := ""
  style : Option (Style α) := none
  iconName : Option String := none
  caption : Option String := none
  imageUrl : Option String := none
  deriving DecidableEq, Repr

/-- One input slide. -/
structure Slide (α : Type) where
  id : Option String := none
  type : String := ""
  duration : α
  content : List (ContentItem α) := []
  voiceScript : String := ""
  deriving DecidableEq, Repr

/-- The compiled `WhiteboardScene`. -/
structure WhiteboardScene (α : Type) where
  id : String
  background : String := "whiteboard"
  actions : List (DrawingAction α)
  narration : Option String := none
  totalDuration : α
  deriving DecidableEq, Repr

/-! ## JavaScript string and number helpers used by the compiler -/

/-- JavaScript `s.startsWith(pre)`, via the character lists. -/
def jsStartsWith (s pre : String) : Bool := pre.toList.isPrefixOf s.toList

/-- First-occurrence replacement on character lists (JS
`String.prototype.replace` with a string pattern replaces only the first
occurrence). -/
def replaceFirstList (pat repl : List Char) : List Char → List Char
  | [] => []
  | c :: rest =>
    if pat.isPrefixOf (c :: rest) then repl ++ (c :: rest).drop pat.length
    else c :: replaceFirstList pat repl rest

/-- JavaScript `s.replace(pat, repl)` for a string pattern. -/
def jsReplaceFirst (s pat repl : String) : String :=
  ⟨replaceFirstList pat.toList repl.toList s.toList⟩

/-- JavaScript `v || d` on an optional string (`undefined` and `''` are falsy). -/
def jsOrStr (v : Option String) (d : String) : String :=
  match v with
  | none => d
  | some s => if s = "" then d else s

/-- Decimal digit accumulator. -/
def digitsVal (ds : List Char) : ℕ :=
  ds.foldl (fun acc c => 10 * acc + (c.toNat - 48)) 0

/-- Exponent part of a JS float literal (`e`/`E` already consumed); an empty
digit run contributes no factor, as `parseFloat` stops before a bare `e`. -/
def parseExpFactor (t : List Char) : ℚ :=
  let (esign, t1) : ℤ × List Char :=
    match t with
    | '-' :: r => (-1, r)
    | '+' :: r => (1, r)
    | _ => (1, t)
  let eds := t1.takeWhile Char.isDigit
  if eds.isEmpty then 1 else (10 : ℚ) ^ (esign * (digitsVal eds : ℤ))

/-- Model of JavaScript `parseFloat` on a trimmed string: optional sign,
decimal digits with an optional point, optional exponent; `none` models
`NaN` (no leading number). -/
def jsParseFloat (s : String) : Option ℚ :=
  let cs := s.toList
  let (sign, cs1) : ℚ × List Char :=
    match cs with
    | '-' :: t => (-1, t)
    | '+' :: t => (1, t)
    | _ => (1, cs)
  let intDigits := cs1.takeWhile Char.isDigit
  let rest1 := cs1.drop intDigits.length
  let (fracDigits, rest2) : List Char × List Char :=
    match rest1 with
    | '.' :: t =>
      (t.takeWhile Char.isDigit, t.drop (t.takeWhile Char.isDigit).length)
    | _ => ([], rest1)
  if intDigits.isEmpty ∧ fracDigits.isEmpty then none
  else
    let mantissa : ℚ :=
      (digitsVal intDigits : ℚ) +
        (digitsVal fracDigits : ℚ) / (10 ^ fracDigits.length)
    let expFactor : ℚ :=
      match rest2 with
      | 'e' :: t => parseExpFactor t
      | 'E' :: t => parseExpFactor t
      | _ => 1
    some (sign * mantissa * expFactor)

/-- Model of `WhiteboardSceneGenerator.parsePosition(value, max, defaultValue)`. -/
def parsePosition (value : StyleVal α) (maxV defaultValue : α) : α :=
  match value with
  | .undef => defaultValue
  | .num none => defaultValue
  | .num (some v) => v
  | .str s =>
    let cleanValue := (jsReplaceFirst s "%" "").trim
    match jsParseFloat cleanValue with
    | some percent => ((percent : ℚ) : α) / 100 * maxV
    | none => defaultValue

/-- Model of `WhiteboardSceneGenerator.contentItemToSemantic(contentItem)`. -/
def contentItemToSemantic (contentItem : ContentItem α) :
    List (SemanticAction α) :=
  if contentItem.type = "heading" ∨ contentItem.type = "text" ∨
      contentItem.type = "bullet" then
    let text :=
      if contentItem.type = "bullet" then "• " ++ contentItem.content
      else contentItem.content
    let style := contentItem.style.getD {}
    let position : Pos α :=
      ⟨parsePosition style.x 1920 960, parsePosition style.y 1080 540⟩
    let base := [SemanticAction.introduce_concept text (some position) none none]
    if contentItem.type = "heading" then
      base ++ [SemanticAction.pause_for_thinking (8/10)]
    else base
  else if contentItem.type = "icon" then
    let style := contentItem.style.getD {}
    let position : Pos α :=
      ⟨parsePosition style.x 1920 960, parsePosition style.y 1080 540⟩
    [SemanticAction.introduce_concept (jsOrStr contentItem.iconName "icon")
      (some position) (some true) (some ⟨style, contentItem.caption⟩)]
  else if contentItem.type = "image" ∧ jsTruthyStr contentItem.imageUrl then
    let style := contentItem.style.getD {}
    let position : Pos α :=
      ⟨parsePosition style.x 1920 960, parsePosition style.y 1080 540⟩
    [SemanticAction.introduce_concept
      ("[IMAGE: " ++ contentItem.imageUrl.getD "" ++ "]")
      (some position) (some true) (some ⟨style, contentItem.caption⟩)]
  else []

/-! ## Action factories of the scene compiler

`generateId()` is `Math.random`-based; ids are modelled as `""` (no claim
mentions them). -/

/-- Model of `createStrokeSequenceAction(text, position, fontSize, timeline, speed)`:
compiles the text to strokes, reserves a slot with a narration pause, and
emits a `write` action whose duration is the exact sum of its stroke
durations (the strokes are stored in the metadata). -/
def createStrokeSequenceAction (text : String) (position : Pos α)
    (fontSize : α) (tl : Timeline α) (speed : Speed) :
    DrawingAction α × Timeline α :=
  let strokes := TextStrokeCompiler.compile text position fontSize speed
  let totalDuration := strokes.foldl (fun sum stroke => sum + stroke.duration) 0
  let slot := tl.nextAvailableSlot ⟨some totalDuration, false, true⟩
  let color : String :=
    if 48 ≤ fontSize then "#2c3e50"
    else if 36 ≤ fontSize then "#34495e"
    else "#2c3e50"
  let color := if 48 ≤ fontSize then "#8b2118" else color
  ({ type := .write
     startTime := slot.1
     duration := totalDuration
     text := some text
     fontSize := some fontSize
     position := some position
     color := some color
     path := some []
     speed := some speed
     handVisible := some true
     metadata := some { strokeWidth := some (max 2 (fontSize * (5/100)))
                        strokes := some strokes } }, slot.2)

/-- Model of `createArrowStrokes(from, to, startTime)`: one `draw` action whose path
is the concatenated line and head paths, timed as two sequential
sub-strokes. -/
def createArrowStrokes (ops : MathOps α) (src dst : Pos α) (startTime : α) :
    DrawingAction α :=
  let paths := generateArrowPath ops src dst 0
  let lineDuration : α := 8/10
  let headDuration : α := 7/10
  { type := .draw
    startTime := startTime
    duration := lineDuration + headDuration
    path := some (paths.1 ++ paths.2)
    start := some src
    endPos := some dst
    color := some "#1a1a1a"
    speed := some .medium
    handVisible := some true
    metadata := some { strokeWidth := some 3
                       strokeSequence := some
                         [⟨paths.1, lineDuration, none⟩,
                          ⟨paths.2, headDuration, none⟩] } }

/-- Model of `createEmphasisAction(target, method, startTime)`. -/
def createEmphasisAction (target : String) (method : EmphasisMethod)
    (startTime : α) : DrawingAction α :=
  let position : Pos α := ⟨960, 540⟩
  let radius : α := 100
  match method with
  | .circle =>
    { type := .circle
      startTime := startTime
      duration := 1
      path := some (generateCirclePath position.x position.y radius)
      position := some position
      radius := some radius
      color := some "#4a9eff"
      speed := some .medium
      handVisible := some true
      metadata := some { strokeWidth := some 3 } }
  | .underline =>
    { type := .underline
      startTime := startTime
      duration := 8/10
      targetId := some target
      color := some "#ff6b6b"
      speed := some .medium
      handVisible := some true
      metadata := some { strokeWidth := some 4 } }
  | .highlight =>
    { type := .highlight
      startTime := startTime
      duration := 1/2
      targetId := some target
      color := some "#ffeb3b"
      speed := some .fast
      handVisible := some false
      metadata := some { opacity := some (3/10) } }

/-- Model of `createCameraAction(from, to, startTime)`: a `pause`-typed camera move. -/
def createCameraAction (src dst : Pos α) (startTime : α) : DrawingAction α :=
  let move : CameraMove α :=
    ⟨⟨src.x / 1920, src.y / 1080, 1⟩, ⟨dst.x / 1920, dst.y / 1080, 1⟩⟩
  { type := .pause
    startTime := startTime
    duration := 12/10
    handVisible := some false
    metadata := some { cameraMove := some move } }

/-- Model of `createImageAction(imageUrl, position, startTime, metadata)`. -/
def createImageAction (imageUrl : String) (position : Pos α) (startTime : α)
    (metadata : Option (SemanticMeta α)) : DrawingAction α :=
  { type := .image
    startTime := startTime
    duration := 2
    position := some position
    handVisible := some true
    metadata := some { imageUrl := some imageUrl
                       style := metadata.map SemanticMeta.style
                       caption := metadata.bind SemanticMeta.caption }
    imageUrl := some imageUrl }

/-- Model of `WhiteboardSceneGenerator.semanticToStrokes(semantic, timeline)`. -/
def semanticToStrokes (ops : MathOps α) (semantic : SemanticAction α)
    (tl : Timeline α) : List (DrawingAction α) × Timeline α :=
  match semantic with
  | .introduce_concept concept position isExplicitVisual metadata =>
    let visualPos := position.getD ⟨960, 540⟩
    let textPos := visualPos
    let isImage := jsStartsWith concept "[IMAGE:"
    let shouldWriteText := if isImage then false else !(isExplicitVisual.getD false)
    let imageStep : List (DrawingAction α) × Timeline α :=
      if isImage then
        let imageUrl := jsReplaceFirst (jsReplaceFirst concept "[IMAGE: " "") "]" ""
        let slot := tl.nextAvailableSlot ⟨some 2, false, false⟩
        ([createImageAction imageUrl visualPos slot.1 metadata], slot.2)
      else ([], tl)
    let writeStep : List (DrawingAction α) × Timeline α :=
      if shouldWriteText then
        let r := createStrokeSequenceAction concept textPos 48 imageStep.2 .medium
        ([r.1], r.2)
      else ([], imageStep.2)
    let pauseStart := writeStep.2.currentTime
    let pauseAction : DrawingAction α :=
      { type := .pause
        startTime := pauseStart
        duration := 1/2
        handVisible := some false }
    let slot := writeStep.2.nextAvailableSlot ⟨some (1/2), false, false⟩
    (imageStep.1 ++ writeStep.1 ++ [pauseAction], slot.2)
  | .explain_relation src dst fromPosOpt toPosOpt =>
    let fromPos := fromPosOpt.getD ⟨500, 400⟩
    let toPos := toPosOpt.getD ⟨1420, 400⟩
    let fromStep := createStrokeSequenceAction src fromPos 36 tl .medium
    let cameraStep : List (DrawingAction α) × Timeline α :=
      if 400 < |toPos.x - fromPos.x| then
        let slot := fromStep.2.nextAvailableSlot ⟨some (12/10), true, false⟩
        ([createCameraAction fromPos toPos slot.1], slot.2)
      else ([], fromStep.2)
    let arrowSlot := cameraStep.2.nextAvailableSlot ⟨some (15/10), false, false⟩
    let arrowStrokes := createArrowStrokes ops fromPos toPos arrowSlot.1
    let toStep := createStrokeSequenceAction dst toPos 36 arrowSlot.2 .medium
    ([fromStep.1] ++ cameraStep.1 ++ [arrowStrokes, toStep.1], toStep.2)
  | .emphasize target method =>
    let slot := tl.nextAvailableSlot ⟨some 1, false, false⟩
    ([createEmphasisAction target method slot.1], slot.2)
  | .pause_for_thinking d =>
    let slot := tl.nextAvailableSlot ⟨some d, false, false⟩
    ([{ type := .pause
        startTime := slot.1
        duration := d
        handVisible := some false }], slot.2)
  | .transition _ => ([], tl)

/-- The inner `for (const semantic of semanticActions)` loop. -/
def runSemantics (ops : MathOps α) :
    List (SemanticAction α) → Timeline α →
      List (DrawingAction α) × Timeline α
  | [], tl => ([], tl)
  | s :: rest, tl =>
    let step := semanticToStrokes ops s tl
    let next := runSemantics ops rest step.2
    (step.1 ++ next.1, next.2)

/-- The outer `for (const contentItem of contentItems)` loop. -/
def runContent (ops : MathOps α) :
    List (ContentItem α) → Timeline α → List (DrawingAction α) × Timeline α
  | [], tl => ([], tl)
  | item :: rest, tl =>
    let step := runSemantics ops (contentItemToSemantic item) tl
    let next := runContent ops rest step.2
    (step.1 ++ next.1, next.2)

/-- Fallback action record (used only as the default of total list
accessors). -/
def defaultDrawingAction : DrawingAction α :=
  { type := .pause, startTime := 0, duration := 0 }

/-- The default semantic action synthesized for a slide with no content. -/
def defaultSemanticFor (slide : Slide α) (sceneCount : ℕ) : SemanticAction α :=
  let defaultText :=
    if slide.voiceScript = "" then "Concept " ++ toString (sceneCount + 1)
    else slide.voiceScript.take 50
  .introduce_concept defaultText (some ⟨960, 540⟩) none none

/-- The per-slide body of `convertSlidesToWhiteboardScenes` (`sceneCount` is
`scenes.length` at loop entry; the slide's `id` falls back to `""`, standing
for the random `generateId()`). -/
def convertSlide (ops : MathOps α) (slide : Slide α) (sceneCount : ℕ) :
    WhiteboardScene α :=
  let tl0 : Timeline α := ⟨0, 0⟩
  let contentItems := slide.content
  let firstPass : List (DrawingAction α) × Timeline α :=
    if contentItems.isEmpty then
      runSemantics ops [defaultSemanticFor slide sceneCount] tl0
    else runContent ops contentItems tl0
  let ensured : List (DrawingAction α) × Timeline α :=
    if firstPass.1.isEmpty then
      let r := createStrokeSequenceAction "Loading..." ⟨960, 540⟩ 48
        firstPass.2 .medium
      ([r.1], r.2)
    else firstPass
  let acts := ensured.1
  let totalDuration : α :=
    if acts.isEmpty then slide.duration
    else
      let lastAction := acts.getLastD defaultDrawingAction
      -- `(lastAction.startTime || 0) + (lastAction.duration || 0)`:
      -- `x || 0` is the identity on the finite numbers of this model
      let actionEndTime := lastAction.startTime + lastAction.duration
      -- the source's `isNaN(actionEndTime) || !isFinite(actionEndTime)`
      -- guard cannot fire on finite model numbers
      let safeTotalDuration := max actionEndTime (jsOr0 slide.duration 5)
      max (1/2) safeTotalDuration
  { id := slide.id.getD ""
    background := "whiteboard"
    actions := acts
    narration := some slide.voiceScript
    totalDuration := totalDuration }

/-- The slide loop, carrying `scenes.length`. -/
def convertSlidesAux (ops : MathOps α) :
    List (Slide α) → ℕ → List (WhiteboardScene α)
  | [], _ => []
  | slide :: rest, n => convertSlide ops slide n :: convertSlidesAux ops rest (n + 1)

/-- Model of `WhiteboardSceneGenerator.convertSlidesToWhiteboardScenes(slides, topic)`
(the `topic` parameter is unused in the source body as well). -/
def convertSlidesToWhiteboardScenes (ops : MathOps α) (slides : List (Slide α))
    (topic : String) : List (WhiteboardScene α) :=
  convertSlidesAux ops slides 0

/-! ## The slot-chaining invariant of compiled timelines -/

/-- End of an action's half-open interval. -/
def actEnd (a : DrawingAction α) : α := a.startTime + a.duration

/-- Chain predicate `Chained t0 acts t1`: the actions lie one after another (each with a
nonnegative duration) between the cursor values `t0` and `t1`. -/
def Chained : α → List (DrawingAction α) → α → Prop
  | t0, [], t1 => t0 ≤ t1
  | t0, a :: rest, t1 =>
    (t0 ≤ a.startTime ∧ 0 ≤ a.duration) ∧ Chained (actEnd a) rest t1

theorem Chained.mono_left {t t0 t1 : α} {l : List (DrawingAction α)}
    (h : t ≤ t0) (hc : Chained t0 l t1) : Chained t l t1 := by
  cases l with
  | nil => exact le_trans h hc
  | cons a rest => exact ⟨⟨le_trans h hc.1.1, hc.1.2⟩, hc.2⟩

theorem Chained.le {t0 t1 : α} {l : List (DrawingAction α)}
    (hc : Chained t0 l t1) : t0 ≤ t1 := by
  induction l generalizing t0 with
  | nil => exact hc
  | cons a rest ih =>
    have h1 : t0 ≤ actEnd a := by
      have := hc.1
      unfold actEnd
      linarith [this.1, this.2]
    exact le_trans h1 (ih hc.2)

theorem Chained.append {t0 t1 t2 : α} {l1 l2 : List (DrawingAction α)}
    (h1 : Chained t0 l1 t1) (h2 : Chained t1 l2 t2) :
    Chained t0 (l1 ++ l2) t2 := by
  induction l1 generalizing t0 with
  | nil => exact h2.mono_left h1
  | cons a rest ih => exact ⟨h1.1, ih h1.2⟩

theorem Chained.start_ge {t0 t1 : α} {l : List (DrawingAction α)}
    (hc : Chained t0 l t1) : ∀ a ∈ l, t0 ≤ a.startTime := by
  induction l generalizing t0 with
  | nil => intro a ha; exact absurd ha (List.not_mem_nil a)
  | cons b rest ih =>
    intro a ha
    rcases List.mem_cons.mp ha with rfl | ha
    · exact hc.1.1
    · have hend : t0 ≤ actEnd b := by
        have := hc.1
        unfold actEnd
        linarith [this.1, this.2]
      exact le_trans hend (ih hc.2 a ha)

theorem Chained.dur_nonneg {t0 t1 : α} {l : List (DrawingAction α)}
    (hc : Chained t0 l t1) : ∀ a ∈ l, 0 ≤ a.duration := by
  induction l generalizing t0 with
  | nil => intro a ha; exact absurd ha (List.not_mem_nil a)
  | cons b rest ih =>
    intro a ha
    rcases List.mem_cons.mp ha with rfl | ha
    · exact hc.1.2
    · exact ih hc.2 a ha

theorem Chained.pairwise {t0 t1 : α} {l : List (DrawingAction α)}
    (hc : Chained t0 l t1) :
    l.Pairwise (fun a b => actEnd a ≤ b.startTime) := by
  induction l generalizing t0 with
  | nil => exact List.Pairwise.nil
  | cons a rest ih =>
    exact List.Pairwise.cons (hc.2.start_ge) (ih hc.2)

theorem Chained.cons_of {t0 t1 t2 : α} {a : DrawingAction α}
    {l : List (DrawingAction α)} (h1 : Chained t0 [a] t1)
    (h2 : Chained t1 l t2) : Chained t0 (a :: l) t2 :=
  ⟨h1.1, h2.mono_left h1.2⟩

/-- One action placed in one freshly reserved slot is chained. -/
theorem chained_single_slot (tl : Timeline α) (opts : SlotOptions α)
    (a : DrawingAction α) (hstart : a.startTime = (tl.nextAvailableSlot opts).1)
    (hdur : 0 ≤ a.duration)
    (hfit : a.duration ≤ safeDuration opts.duration) :
    Chained tl.currentTime [a] ((tl.nextAvailableSlot opts).2).currentTime := by
  refine ⟨⟨?_, hdur⟩, ?_⟩
  · rw [hstart]
    exact nextAvailableSlot_start_ge tl opts
  · show actEnd a ≤ _
    rw [nextAvailableSlot_currentTime, actEnd, hstart]
    linarith [hfit]

/-- Slot-reserved head action in front of an already chained tail. -/
theorem chained_slot_cons (tl : Timeline α) (opts : SlotOptions α)
    (a : DrawingAction α) (l : List (DrawingAction α)) (t2 : α)
    (hstart : a.startTime = (tl.nextAvailableSlot opts).1)
    (hdur : 0 ≤ a.duration)
    (hfit : a.duration ≤ safeDuration opts.duration)
    (hrest : Chained (((tl.nextAvailableSlot opts).2)).currentTime l t2) :
    Chained tl.currentTime (a :: l) t2 :=
  (chained_single_slot tl opts a hstart hdur hfit).cons_of hrest

/-- Every stroke the compiler emits has duration at least `0.1`. -/
theorem compile_duration_lb (text : String) (position : Pos α) (fontSize : α)
    (speed : Speed) : ∀ st ∈ TextStrokeCompiler.compile text position
      fontSize speed, (1:α)/10 ≤ st.duration := by
  intro st hst
  obtain ⟨seg, _, rfl⟩ := List.mem_map.mp hst
  exact le_max_left _ _

theorem foldl_dur_nonneg (l : List (TimedStroke α))
    (h : ∀ st ∈ l, 0 ≤ st.duration) :
    ∀ init : α, 0 ≤ init →
      0 ≤ l.foldl (fun sum st => sum + st.duration) init := by
  induction l with
  | nil => intro init hi; exact hi
  | cons st rest ih =>
    intro init hi
    have hst := h st (List.mem_cons_self st rest)
    have hnext : (0:α) ≤ init + st.duration := by linarith
    exact ih (fun s hs => h s (List.mem_cons_of_mem st hs)) _ hnext

/-- The total stroke duration of a compiled text is nonnegative. -/
theorem strokeSum_nonneg (text : String) (position : Pos α) (fontSize : α)
    (speed : Speed) :
    0 ≤ (TextStrokeCompiler.compile text position fontSize speed).foldl
      (fun sum st => sum + st.duration) 0 :=
  foldl_dur_nonneg _ (fun st hst => le_trans (by norm_num)
    (compile_duration_lb text position fontSize speed st hst)) 0 (le_refl 0)

/-- The duration-conservation property of `write` actions: the sum of the
metadata sub-stroke durations equals the action's duration. -/
def writeDurOK (a : DrawingAction α) : Prop :=
  a.type = .write →
    ((a.metadata.bind ActionMetadata.strokes).getD []).foldl
      (fun sum st => sum + st.duration) 0 = a.duration

/-- The write action of `createStrokeSequenceAction` is chained into its
reserved slot and conserves its stroke durations. -/
theorem createStrokeSequenceAction_spec (text : String) (position : Pos α)
    (fontSize : α) (tl : Timeline α) (speed : Speed) :
    Chained tl.currentTime
      [(createStrokeSequenceAction text position fontSize tl speed).1]
      (((createStrokeSequenceAction text position fontSize tl speed).2)).currentTime ∧
    writeDurOK (createStrokeSequenceAction text position fontSize tl speed).1 ∧
    (createStrokeSequenceAction text position fontSize tl speed).1.type =
      .write := by
  refine ⟨?_, ?_, rfl⟩
  · apply chained_single_slot
    · rfl
    · exact strokeSum_nonneg text position fontSize speed
    · exact le_max_right _ _
  · intro _
    rfl

/-- Precondition under which a semantic action chains: the only intent with a
caller-supplied duration must not make it negative (the content normalizer
only ever emits `0.8` there). -/
def semOK : SemanticAction α → Prop
  | .pause_for_thinking d => 0 ≤ d
  | _ => True

/-- Each semantic intent compiles to a run of actions chained between the
incoming and outgoing cursor, all of which conserve write durations. -/
theorem semanticToStrokes_spec (ops : MathOps α) (sem : SemanticAction α)
    (tl : Timeline α) (hsem : semOK sem) :
    Chained tl.currentTime (semanticToStrokes ops sem tl).1
      ((semanticToStrokes ops sem tl).2).currentTime ∧
    ∀ a ∈ (semanticToStrokes ops sem tl).1, writeDurOK a := by
  cases sem with
  | introduce_concept concept position isExplicitVisual metadata =>
    have hpause : ∀ tl2 : Timeline α,
        Chained tl2.currentTime
          [{ type := .pause, startTime := tl2.currentTime, duration := 1/2,
             handVisible := some false }]
          ((tl2.nextAvailableSlot ⟨some (1/2), false, false⟩).2).currentTime := by
      intro tl2
      apply chained_single_slot
      · rw [nextAvailableSlot_fst]
        simp
      · norm_num
      · exact le_max_right _ _
    cases hImg : jsStartsWith concept "[IMAGE:" with
    | true =>
      simp only [semanticToStrokes, hImg, Bool.false_eq_true, if_true,
        if_false, List.nil_append, List.singleton_append, List.cons_append]
      refine ⟨?_, ?_⟩
      · exact chained_slot_cons _ ⟨some 2, false, false⟩ _ _ _ rfl
          (by norm_num [createImageAction]) (le_max_right _ _) (hpause _)
      · intro a ha
        rcases List.mem_cons.mp ha with rfl | ha
        · intro h
          simp [createImageAction] at h
        · rcases List.mem_cons.mp ha with rfl | ha
          · intro h
            simp at h
          · exact absurd ha (List.not_mem_nil a)
    | false =>
      cases hVis : isExplicitVisual.getD false with
      | true =>
        simp only [semanticToStrokes, hImg, hVis, Bool.false_eq_true,
          Bool.not_true, if_true, if_false, List.nil_append,
          List.singleton_append, List.cons_append]
        refine ⟨hpause _, ?_⟩
        intro a ha
        rcases List.mem_cons.mp ha with rfl | ha
        · intro h
          simp at h
        · exact absurd ha (List.not_mem_nil a)
      | false =>
        have hw := createStrokeSequenceAction_spec concept
          (position.getD ⟨960, 540⟩) 48 tl .medium
        simp only [semanticToStrokes, hImg, hVis, Bool.false_eq_true,
          Bool.not_false, if_true, if_false, List.nil_append,
          List.singleton_append, List.cons_append]
        refine ⟨Chained.cons_of hw.1 (hpause _), ?_⟩
        intro a ha
        rcases List.mem_cons.mp ha with rfl | ha
        · exact hw.2.1
        · rcases List.mem_cons.mp ha with rfl | ha
          · intro h
            simp at h
          · exact absurd ha (List.not_mem_nil a)
  | explain_relation src dst fromPosOpt toPosOpt =>
    have hfrom := createStrokeSequenceAction_spec src
      (fromPosOpt.getD ⟨500, 400⟩) 36 tl .medium
    by_cases hcam : (400:α) < |(toPosOpt.getD ⟨1420, 400⟩).x -
        (fromPosOpt.getD ⟨500, 400⟩).x|
    · have hto := createStrokeSequenceAction_spec dst
        (toPosOpt.getD ⟨1420, 400⟩) 36
        ((((createStrokeSequenceAction src (fromPosOpt.getD ⟨500, 400⟩) 36 tl
          .medium).2).nextAvailableSlot
            ⟨some (12/10), true, false⟩).2.nextAvailableSlot
              ⟨some (15/10), false, false⟩).2 .medium
      simp only [semanticToStrokes, hcam, if_true, if_false, List.nil_append,
        List.singleton_append, List.cons_append]
      refine ⟨Chained.cons_of hfrom.1
        (chained_slot_cons _ ⟨some (12/10), true, false⟩ _ _ _ rfl
          (by norm_num [createCameraAction]) (le_max_right _ _)
          (chained_slot_cons _ ⟨some (15/10), false, false⟩ _ _ _ rfl
            (by norm_num [createArrowStrokes])
            (le_trans (by norm_num [createArrowStrokes])
              (le_max_right (1/10 : α) (15/10)))
            hto.1)), ?_⟩
      · intro a ha
        rcases List.mem_cons.mp ha with rfl | ha
        · exact hfrom.2.1
        · rcases List.mem_cons.mp ha with rfl | ha
          · intro h
            simp [createCameraAction] at h
          · rcases List.mem_cons.mp ha with rfl | ha
            · intro h
              simp [createArrowStrokes] at h
            · rcases List.mem_cons.mp ha with rfl | ha
              · exact hto.2.1
              · exact absurd ha (List.not_mem_nil a)
    · have hto := createStrokeSequenceAction_spec dst
        (toPosOpt.getD ⟨1420, 400⟩) 36
        (((createStrokeSequenceAction src (fromPosOpt.getD ⟨500, 400⟩) 36 tl
          .medium).2).nextAvailableSlot ⟨some (15/10), false, false⟩).2 .medium
      simp only [semanticToStrokes, hcam, if_true, if_false, List.nil_append,
        List.singleton_append, List.cons_append]
      refine ⟨Chained.cons_of hfrom.1 (Chained.cons_of ?_ hto.1), ?_⟩
      · apply chained_single_slot
        · rfl
        · norm_num [createArrowStrokes]
        · exact le_trans (by norm_num [createArrowStrokes])
            (le_max_right (1/10 : α) (15/10))
      · intro a ha
        rcases List.mem_cons.mp ha with rfl | ha
        · exact hfrom.2.1
        · rcases List.mem_cons.mp ha with rfl | ha
          · intro h
            simp [createArrowStrokes] at h
          · rcases List.mem_cons.mp ha with rfl | ha
            · exact hto.2.1
            · exact absurd ha (List.not_mem_nil a)
  | emphasize target method =>
    simp only [semanticToStrokes]
    refine ⟨?_, ?_⟩
    · apply chained_single_slot
      · cases method <;> rfl
      · cases method <;> norm_num [createEmphasisAction]
      · cases method
        · exact le_max_right _ _
        · exact le_trans (by norm_num [createEmphasisAction])
            (le_max_right (1/10 : α) 1)
        · exact le_trans (by norm_num [createEmphasisAction])
            (le_max_right (1/10 : α) 1)
    · intro a ha
      rcases List.mem_cons.mp ha with rfl | ha
      · intro h
        cases method <;> simp [createEmphasisAction] at h
      · exact absurd ha (List.not_mem_nil a)
  | pause_for_thinking d =>
    simp only [semanticToStrokes]
    refine ⟨?_, ?_⟩
    · apply chained_single_slot
      · rfl
      · exact hsem
      · exact le_max_right _ _
    · intro a ha
      rcases List.mem_cons.mp ha with rfl | ha
      · intro h
        simp at h
      · exact absurd ha (List.not_mem_nil a)
  | transition dst =>
    simp only [semanticToStrokes]
    exact ⟨le_refl _, fun a ha => absurd ha (List.not_mem_nil a)⟩

/-- The content normalizer only emits well-formed intents (its one
`pause_for_thinking` carries `0.8`). -/
theorem contentItemToSemantic_semOK (item : ContentItem α) :
    ∀ sem ∈ contentItemToSemantic item, semOK sem := by
  intro sem hsem
  unfold contentItemToSemantic at hsem
  split_ifs at hsem
  all_goals
    simp only [List.mem_append, List.mem_cons, List.not_mem_nil,
      or_false] at hsem
  all_goals
    first
      | (subst hsem
         norm_num [semOK])
      | (rcases hsem with rfl | rfl <;> norm_num [semOK])

/-- The semantic loop chains all its actions between the cursors. -/
theorem runSemantics_spec (ops : MathOps α) (sems : List (SemanticAction α))
    (tl : Timeline α) (h : ∀ sem ∈ sems, semOK sem) :
    Chained tl.currentTime (runSemantics ops sems tl).1
      ((runSemantics ops sems tl).2).currentTime ∧
    ∀ a ∈ (runSemantics ops sems tl).1, writeDurOK a := by
  induction sems generalizing tl with
  | nil => exact ⟨le_refl _, fun a ha => absurd ha (List.not_mem_nil a)⟩
  | cons s rest ih =>
    have h1 := semanticToStrokes_spec ops s tl (h s (List.mem_cons_self s rest))
    have h2 := ih (semanticToStrokes ops s tl).2
      (fun x hx => h x (List.mem_cons_of_mem s hx))
    simp only [runSemantics]
    exact ⟨h1.1.append h2.1,
      fun a ha => (List.mem_append.mp ha).elim (h1.2 a) (h2.2 a)⟩

/-- The content loop chains all its actions between the cursors. -/
theorem runContent_spec (ops : MathOps α) (items : List (ContentItem α))
    (tl : Timeline α) :
    Chained tl.currentTime (runContent ops items tl).1
      ((runContent ops items tl).2).currentTime ∧
    ∀ a ∈ (runContent ops items tl).1, writeDurOK a := by
  induction items generalizing tl with
  | nil => exact ⟨le_refl _, fun a ha => absurd ha (List.not_mem_nil a)⟩
  | cons item rest ih =>
    have h1 := runSemantics_spec ops (contentItemToSemantic item) tl
      (contentItemToSemantic_semOK item)
    have h2 := ih (runSemantics ops (contentItemToSemantic item) tl).2
    simp only [runContent]
    exact ⟨h1.1.append h2.1,
      fun a ha => (List.mem_append.mp ha).elim (h1.2 a) (h2.2 a)⟩

/-- Every compiled scene's action list is chained from time `0`, and every
action in it conserves write durations. -/
theorem convertSlide_spec (ops : MathOps α) (slide : Slide α) (n : ℕ) :
    (∃ t1, Chained 0 (convertSlide ops slide n).actions t1) ∧
    ∀ a ∈ (convertSlide ops slide n).actions, writeDurOK a := by
  by_cases hc : slide.content.isEmpty
  · have h1 := runSemantics_spec ops [defaultSemanticFor slide n]
      (⟨0, 0⟩ : Timeline α)
      (by
        intro sem hsem
        rcases List.mem_cons.mp hsem with rfl | h
        · unfold defaultSemanticFor
          trivial
        · exact absurd h (List.not_mem_nil sem))
    by_cases ha : (runSemantics ops [defaultSemanticFor slide n]
        (⟨0, 0⟩ : Timeline α)).1.isEmpty
    · have h2 := createStrokeSequenceAction_spec "Loading..." ⟨960, 540⟩ 48
        (runSemantics ops [defaultSemanticFor slide n]
          (⟨0, 0⟩ : Timeline α)).2 .medium
      simp [convertSlide, hc, ha]
      exact ⟨⟨_, h2.1.mono_left h1.1.le⟩, h2.2.1⟩
    · simp [convertSlide, hc, ha]
      exact ⟨⟨_, h1.1⟩, h1.2⟩
  · have h1 := runContent_spec ops slide.content (⟨0, 0⟩ : Timeline α)
    by_cases ha : (runContent ops slide.content (⟨0, 0⟩ : Timeline α)).1.isEmpty
    · have h2 := createStrokeSequenceAction_spec "Loading..." ⟨960, 540⟩ 48
        (runContent ops slide.content (⟨0, 0⟩ : Timeline α)).2 .medium
      simp [convertSlide, hc, ha]
      exact ⟨⟨_, h2.1.mono_left h1.1.le⟩, h2.2.1⟩
    · simp [convertSlide, hc, ha]
      exact ⟨⟨_, h1.1⟩, h1.2⟩

/-- Every scene of the slide loop is a `convertSlide` result. -/
theorem convertSlidesAux_mem (ops : MathOps α) (slides : List (Slide α))
    (n : ℕ) (scene : WhiteboardScene α)
    (h : scene ∈ convertSlidesAux ops slides n) :
    ∃ slide k, scene = convertSlide ops slide k := by
  induction slides generalizing n with
  | nil => exact absurd h (List.not_mem_nil scene)
  | cons slide rest ih =>
    rcases List.mem_cons.mp h with rfl | h
    · exact ⟨slide, n, rfl⟩
    · exact ih (n + 1) h

/-- An action is a camera move exactly when its metadata carries a
`cameraMove` record (only `createCameraAction` writes one). -/
def requiresCameraMove (a : DrawingAction α) : Bool :=
  (a.metadata.bind ActionMetadata.cameraMove).isSome

/-- C1: in every compiled scene, any two distinct actions, neither of which
requires a camera move, have disjoint half-open intervals
`[startTime, startTime + duration)`. -/
theorem C1_compiled_scene_nonoverlap (ops : MathOps α)
    (slides : List (Slide α)) (topic : String) (scene : WhiteboardScene α)
    (hscene : scene ∈ convertSlidesToWhiteboardScenes ops slides topic)
    (i j : ℕ) (hi : i < scene.actions.length) (hj : j < scene.actions.length)
    (hij : i ≠ j)
    (hci : requiresCameraMove (scene.actions.get ⟨i, hi⟩) = false)
    (hcj : requiresCameraMove (scene.actions.get ⟨j, hj⟩) = false) :
    Disjoint
      (Set.Ico (scene.actions.get ⟨i, hi⟩).startTime
        (actEnd (scene.actions.get ⟨i, hi⟩)))
      (Set.Ico (scene.actions.get ⟨j, hj⟩).startTime
        (actEnd (scene.actions.get ⟨j, hj⟩))) := by
  obtain ⟨slide, k, rfl⟩ := convertSlidesAux_mem ops slides 0 scene hscene
  obtain ⟨⟨t1, hch⟩, -⟩ := convertSlide_spec ops slide k
  have hpw := hch.pairwise
  rw [List.pairwise_iff_get] at hpw
  rcases Nat.lt_or_ge i j with hlt | hge
  · have hrel := hpw ⟨i, hi⟩ ⟨j, hj⟩ hlt
    rw [Set.disjoint_left]
    intro x hx1 hx2
    rw [Set.mem_Ico] at hx1 hx2
    have := hx1.2
    have := hx2.1
    linarith [hrel]
  · have hlt : j < i := lt_of_le_of_ne hge (Ne.symm hij)
    have hrel := hpw ⟨j, hj⟩ ⟨i, hi⟩ hlt
    rw [Set.disjoint_right]
    intro x hx1 hx2
    rw [Set.mem_Ico] at hx1 hx2
    have := hx1.2
    have := hx2.1
    linarith [hrel]

/-- C5: every `write` action a compiled scene contains has a duration equal
to the exact sum of the sub-stroke durations stored in its metadata. -/
theorem C5_write_duration_conservation (ops : MathOps α)
    (slides : List (Slide α)) (topic : String) (scene : WhiteboardScene α)
    (hscene : scene ∈ convertSlidesToWhiteboardScenes ops slides topic)
    (a : DrawingAction α) (ha : a ∈ scene.actions) (hw : a.type = .write) :
    ((a.metadata.bind ActionMetadata.strokes).getD []).foldl
      (fun sum st => sum + st.duration) 0 = a.duration := by
  obtain ⟨slide, k, rfl⟩ := convertSlidesAux_mem ops slides 0 scene hscene
  exact (convertSlide_spec ops slide k).2 a ha hw

/-- C6 (amended): every action a compiled scene contains has
`startTime ≥ 0` and `duration ≥ 0` (a zero duration can reach an emitted
`write` action; see the counterexample). -/
theorem C6_amended_nonnegative (ops : MathOps α) (slides : List (Slide α))
    (topic : String) (scene : WhiteboardScene α)
    (hscene : scene ∈ convertSlidesToWhiteboardScenes ops slides topic)
    (a : DrawingAction α) (ha : a ∈ scene.actions) :
    0 ≤ a.startTime ∧ 0 ≤ a.duration := by
  obtain ⟨slide, k, rfl⟩ := convertSlidesAux_mem ops slides 0 scene hscene
  obtain ⟨⟨t1, hch⟩, -⟩ := convertSlide_spec ops slide k
  exact ⟨hch.start_ge a ha, hch.dur_nonneg a ha⟩

/-- Running `runContent` on items that normalize to no semantic intents emits no
actions and leaves the timeline unchanged. -/
theorem runContent_empty (ops : MathOps α) (items : List (ContentItem α))
    (tl : Timeline α) (h : ∀ item ∈ items, contentItemToSemantic item = []) :
    runContent ops items tl = ([], tl) := by
  induction items generalizing tl with
  | nil => rfl
  | cons item rest ih =>
    have h1 : contentItemToSemantic item = ([] : List (SemanticAction α)) :=
      h item (List.mem_cons_self item rest)
    simp only [runContent, h1, runSemantics]
    simp only [ih tl (fun x hx => h x (List.mem_cons_of_mem item hx)),
      List.nil_append]

/-- C9: a slide whose (non-empty) content normalizes to an empty semantic
intent list compiles to a scene with exactly one synthesized placeholder
`write` action and a strictly positive total duration. -/
theorem C9_empty_intents_placeholder (ops : MathOps α) (slide : Slide α)
    (topic : String) (hne : slide.content ≠ [])
    (hempty : ∀ item ∈ slide.content, contentItemToSemantic item = []) :
    (convertSlidesToWhiteboardScenes ops [slide] topic).length = 1 ∧
    ∀ scene ∈ convertSlidesToWhiteboardScenes ops [slide] topic,
      scene.actions.length = 1 ∧
      (scene.actions.headD defaultDrawingAction).type = .write ∧
      0 < scene.totalDuration := by
  refine ⟨rfl, ?_⟩
  intro scene hscene
  have hsc : scene = convertSlide ops slide 0 := by
    rcases List.mem_cons.mp hscene with rfl | h
    · rfl
    · exact absurd h (List.not_mem_nil scene)
  subst hsc
  have hc : slide.content.isEmpty = false := by
    cases hcc : slide.content with
    | nil => exact absurd hcc hne
    | cons x xs => rfl
  have hrun := runContent_empty ops slide.content (⟨0, 0⟩ : Timeline α) hempty
  simp only [convertSlide, hc, Bool.false_eq_true, if_false, hrun,
    List.isEmpty_nil, if_true]
  refine ⟨rfl, rfl, ?_⟩
  exact lt_of_lt_of_le (by norm_num) (le_max_left _ _)

/-! ## Concrete compiled scenes

A slide with one `text` content item whose string is empty compiles to a
`write` action with an empty stroke list and duration `0`, followed by the
thinking pause. -/

/-- A slide with one empty `text` item. -/
def badSlide : Slide ℚ :=
  { duration := 5, content := [{ type := "text" }], voiceScript := "v" }

/-- A slide with one content item of unrecognized type, which normalizes to
no semantic intents. -/
def spacerSlide : Slide ℚ :=
  { duration := 5, content := [{ type := "spacer" }], voiceScript := "v" }

/-- The zero-duration `write` action the compiler emits for empty text. -/
def emptyWriteAct : DrawingAction ℚ :=
  { type := .write, startTime := 3/10, duration := 0, text := some "",
    fontSize := some 48, position := some ⟨960, 540⟩, color := some "#8b2118",
    path := some [], speed := some .medium, handVisible := some true,
    metadata := some { strokeWidth := some (12/5), strokes := some [] } }

/-- The thinking pause following it. -/
def pauseAfterEmptyWrite : DrawingAction ℚ :=
  { type := .pause, startTime := 1/2, duration := 1/2,
    handVisible := some false }

/-- The scene compiled from `badSlide`. -/
def badScene : WhiteboardScene ℚ :=
  { id := "", background := "whiteboard",
    actions := [emptyWriteAct, pauseAfterEmptyWrite],
    narration := some "v", totalDuration := 5 }

theorem compileEmpty_eval :
    TextStrokeCompiler.compile "" (⟨960, 540⟩ : Pos ℚ) 48 .medium = [] := rfl

theorem createEmptyWrite_eval :
    createStrokeSequenceAction "" (⟨960, 540⟩ : Pos ℚ) 48
      (⟨0, 0⟩ : Timeline ℚ) .medium = (emptyWriteAct, ⟨1/2, 0⟩) := by
  simp only [createStrokeSequenceAction, compileEmpty_eval,
    Timeline.nextAvailableSlot, safeDuration, List.foldl_nil, emptyWriteAct]
  norm_num [max_def, Prod.ext_iff]

theorem semanticIntro_eval :
    semanticToStrokes qOps
      (SemanticAction.introduce_concept "" (some ⟨960, 540⟩) none none)
      (⟨0, 0⟩ : Timeline ℚ) =
      ([emptyWriteAct, pauseAfterEmptyWrite], ⟨11/10, 0⟩) := by
  have hImg : jsStartsWith "" "[IMAGE:" = false := by decide
  simp only [semanticToStrokes, hImg, Bool.false_eq_true, if_false,
    Option.getD_none, Option.getD_some, Bool.not_false, if_true]
  simp only [Timeline.nextAvailableSlot, safeDuration, pauseAfterEmptyWrite]
  norm_num [createEmptyWrite_eval, max_def, Prod.ext_iff]

theorem contentText_eval :
    contentItemToSemantic ({ type := "text" } : ContentItem ℚ) =
      [SemanticAction.introduce_concept "" (some ⟨960, 540⟩) none none] := by
  rfl

set_option maxRecDepth 4000 in
theorem runContentBad_eval :
    runContent qOps [({ type := "text" } : ContentItem ℚ)] ⟨0, 0⟩ =
      ([emptyWriteAct, pauseAfterEmptyWrite], ⟨11/10, 0⟩) := by
  rw [runContent, contentText_eval]
  simp only [runSemantics, semanticIntro_eval, runContent]
  simp

theorem convertBadSlide_eval :
    convertSlidesToWhiteboardScenes qOps [badSlide] "t" = [badScene] := by
  simp only [convertSlidesToWhiteboardScenes, convertSlidesAux, badSlide,
    convertSlide, runContentBad_eval, List.isEmpty_cons, Bool.false_eq_true,
    if_false]
  norm_num [jsOr0, max_def, List.getLastD, badScene, emptyWriteAct,
    pauseAfterEmptyWrite, defaultDrawingAction]

/-- C6 counterexample: compiling a slide with one empty `text` item emits a
`write` action whose duration is exactly `0`, so a zero duration does
propagate into an emitted action. -/
theorem C6_counterexample_zero_duration :
    (((convertSlidesToWhiteboardScenes qOps [badSlide] "t").headD
        { id := "", actions := [], totalDuration := 0 }).actions.headD
      defaultDrawingAction).type = .write ∧
    (((convertSlidesToWhiteboardScenes qOps [badSlide] "t").headD
        { id := "", actions := [], totalDuration := 0 }).actions.headD
      defaultDrawingAction).duration = 0 := by
  rw [convertBadSlide_eval]
  exact ⟨rfl, rfl⟩

theorem badScene_mem :
    badScene ∈ convertSlidesToWhiteboardScenes qOps [badSlide] "t" := by
  rw [convertBadSlide_eval]
  exact List.mem_singleton_self _

/-- C6 witness: on the compiled `badScene`, the amended claim holds for the
zero-duration write action. -/
theorem C6_amended_nonnegative_witness :
    badScene ∈ convertSlidesToWhiteboardScenes qOps [badSlide] "t" ∧
    emptyWriteAct ∈ badScene.actions ∧
    (0 ≤ emptyWriteAct.startTime ∧ 0 ≤ emptyWriteAct.duration) :=
  ⟨badScene_mem, List.mem_cons_self _ _,
    C6_amended_nonnegative qOps [badSlide] "t" badScene badScene_mem
      emptyWriteAct (List.mem_cons_self _ _)⟩

/-- C5 witness: the zero-duration write action of `badScene` conserves its
(empty) stroke list's total duration. -/
theorem C5_write_duration_conservation_witness :
    badScene ∈ convertSlidesToWhiteboardScenes qOps [badSlide] "t" ∧
    emptyWriteAct ∈ badScene.actions ∧ emptyWriteAct.type = .write ∧
    ((emptyWriteAct.metadata.bind ActionMetadata.strokes).getD []).foldl
      (fun sum st => sum + st.duration) 0 = emptyWriteAct.duration :=
  ⟨badScene_mem, List.mem_cons_self _ _, rfl,
    C5_write_duration_conservation qOps [badSlide] "t" badScene badScene_mem
      emptyWriteAct (List.mem_cons_self _ _) rfl⟩

/-- C1 witness: the two distinct non-camera actions of `badScene` have
disjoint intervals. -/
theorem C1_compiled_scene_nonoverlap_witness :
    badScene ∈ convertSlidesToWhiteboardScenes qOps [badSlide] "t" ∧
    (0:ℕ) ≠ 1 ∧
    (∀ h0 : 0 < badScene.actions.length, ∀ h1 : 1 < badScene.actions.length,
      requiresCameraMove (badScene.actions.get ⟨0, h0⟩) = false ∧
      requiresCameraMove (badScene.actions.get ⟨1, h1⟩) = false ∧
      Disjoint
        (Set.Ico (badScene.actions.get ⟨0, h0⟩).startTime
          (actEnd (badScene.actions.get ⟨0, h0⟩)))
        (Set.Ico (badScene.actions.get ⟨1, h1⟩).startTime
          (actEnd (badScene.actions.get ⟨1, h1⟩)))) := by
  refine ⟨badScene_mem, by norm_num, ?_⟩
  intro h0 h1
  refine ⟨rfl, rfl, ?_⟩
  exact C1_compiled_scene_nonoverlap qOps [badSlide] "t" badScene badScene_mem
    0 1 h0 h1 (by norm_num) rfl rfl

/-- C9 witness: `spacerSlide`'s content is non-empty, normalizes to no
intents, and compiles to a one-action placeholder scene. -/
theorem C9_empty_intents_placeholder_witness :
    spacerSlide.content ≠ [] ∧
    (∀ item ∈ spacerSlide.content, contentItemToSemantic item = []) ∧
    ((convertSlidesToWhiteboardScenes qOps [spacerSlide] "t").length = 1 ∧
      ∀ scene ∈ convertSlidesToWhiteboardScenes qOps [spacerSlide] "t",
        scene.actions.length = 1 ∧
        (scene.actions.headD defaultDrawingAction).type = .write ∧
        0 < scene.totalDuration) :=
  ⟨by decide, by decide,
    C9_empty_intents_placeholder qOps spacerSlide "t" (by decide) (by decide)⟩

end Learnai
